import Mathlib

/-!
# Verification of the Reggie level codec and object renderer

Shallow embedding of the core codec/renderer functions of `reggie.py`
(course block table, record codecs, zone lookup, sprite sort, tileset
object renderer).  Byte strings are modelled as `List Nat` of byte
values; Python's `ord(s[i])` is the value at index `i`.  Big-endian
multi-byte fields follow the `struct` format strings used in the source.
-/

namespace Reggie

/-- Big-endian 2-byte encoding of a 16-bit value (`struct` format `H`).
`struct.pack` rejects out-of-range values; the model truncates, and all
round-trip theorems carry the corresponding range hypotheses. -/
def be16 (n : Nat) : List Nat := [n / 256 % 256, n % 256]

/-- Big-endian 4-byte encoding of a 32-bit value (`struct` format `I`). -/
def be32 (n : Nat) : List Nat :=
  [n / 16777216 % 256, n / 65536 % 256, n / 256 % 256, n % 256]

/-- Read a big-endian 16-bit value at `off` (missing bytes read as 0). -/
def readBE16 (s : List Nat) (off : Nat) : Nat :=
  s.getD off 0 * 256 + s.getD (off + 1) 0

/-- Read a big-endian 32-bit value at `off` (missing bytes read as 0). -/
def readBE32 (s : List Nat) (off : Nat) : Nat :=
  s.getD off 0 * 16777216 + s.getD (off + 1) 0 * 65536 +
    s.getD (off + 2) 0 * 256 + s.getD (off + 3) 0

theorem be16_length (n : Nat) : (be16 n).length = 2 := rfl

theorem be32_length (n : Nat) : (be32 n).length = 4 := rfl

theorem readBE16_be16 (n : Nat) (h : n < 65536) (rest : List Nat) :
    readBE16 (be16 n ++ rest) 0 = n := by
  have h1 : n / 256 < 256 := Nat.div_lt_of_lt_mul h
  simp [readBE16, be16, List.getD, Nat.mod_eq_of_lt h1]
  omega

theorem readBE32_be32 (n : Nat) (h : n < 4294967296) (rest : List Nat) :
    readBE32 (be32 n ++ rest) 0 = n := by
  have h1 : n / 16777216 < 256 := Nat.div_lt_of_lt_mul h
  simp [readBE32, be32, List.getD, Nat.mod_eq_of_lt h1]
  omega

theorem getD_append_right {a b : List Nat} {k : Nat} (d : Nat) :
    (a ++ b).getD (a.length + k) d = b.getD k d := by
  simp [List.getD_eq_getElem?_getD, List.getElem?_append_right (Nat.le_add_right _ _)]

theorem readBE16_append (a b : List Nat) (k : Nat) :
    readBE16 (a ++ b) (a.length + k) = readBE16 b k := by
  unfold readBE16
  rw [show a.length + k + 1 = a.length + (k + 1) by omega,
    getD_append_right, getD_append_right]

theorem readBE32_append (a b : List Nat) (k : Nat) :
    readBE32 (a ++ b) (a.length + k) = readBE32 b k := by
  unfold readBE32
  rw [show a.length + k + 1 = a.length + (k + 1) by omega,
    show a.length + k + 2 = a.length + (k + 2) by omega,
    show a.length + k + 3 = a.length + (k + 3) by omega,
    getD_append_right, getD_append_right, getD_append_right, getD_append_right]

/-! ## Course block table (`LevelUnit.loadLevelData` / `LevelUnit.save`)

`loadLevelData` reads 14 big-endian `(offset, length)` pairs from the
first 112 bytes of the course blob; a zero length yields an empty block.
The editor metadata is the region `course[0x70:offset₀]` when block 0
does not start at `0x70`.  `save` pads the metadata to a 4-byte boundary
and lays the 14 blocks out contiguously after header + metadata,
rebuilding every `(offset, length)` pair. -/

/-- One block as read by `loadLevelData`: `course[off:off+len]`, empty
when the recorded length is zero. -/
def splitBlock (course : List Nat) (i : Nat) : List Nat :=
  if readBE32 course (i * 8 + 4) = 0 then []
  else (course.drop (readBE32 course (i * 8))).take (readBE32 course (i * 8 + 4))

/-- The 14 blocks of a course blob (`LevelUnit.loadLevelData`). -/
def splitBlocks (course : List Nat) : List (List Nat) :=
  (List.range 14).map (splitBlock course)

/-- The metadata region `course[0x70:offset₀]` (`LevelUnit.loadLevelData`);
empty when block 0 starts exactly at `0x70`. -/
def splitMeta (course : List Nat) : List Nat :=
  if readBE32 course 0 = 112 then []
  else (course.drop 112).take (readBE32 course 0 - 112)

/-- Metadata padding to a 4-byte boundary (`LevelUnit.save`). -/
def pad4 (md : List Nat) : List Nat :=
  if md.length % 4 = 0 then md else md ++ List.replicate (4 - md.length % 4) 0

/-- The rebuilt block-table header: one `(offset, length)` pair per
block, offsets accumulating contiguously (`LevelUnit.save`). -/
def courseHeader (off : Nat) : List (List Nat) → List Nat
  | [] => []
  | b :: rest => be32 off ++ be32 b.length ++ courseHeader (off + b.length) rest

/-- The rebuilt course blob (`LevelUnit.save`): 112-byte header, metadata
padded to a 4-byte boundary at offset 0x70, then the 14 blocks laid out
contiguously in index order. -/
def joinCourse (blocks : List (List Nat)) (md : List Nat) : List Nat :=
  courseHeader (112 + (pad4 md).length) blocks ++ pad4 md ++ blocks.flatten

theorem courseHeader_length (off : Nat) (blocks : List (List Nat)) :
    (courseHeader off blocks).length = 8 * blocks.length := by
  induction blocks generalizing off with
  | nil => simp [courseHeader]
  | cons b rest ih => simp [courseHeader, be32, ih]; omega

theorem pad4_of_aligned {md : List Nat} (h : md.length % 4 = 0) : pad4 md = md := by
  simp [pad4, h]

/-- Reading pair `i` of the rebuilt header recovers the accumulated
offset and the block length. -/
theorem courseHeader_reads (blocks : List (List Nat)) (off : Nat) (tail : List Nat)
    (i : Nat) (hi : i < blocks.length)
    (hb : off + ((blocks.map List.length).sum) < 4294967296) :
    readBE32 (courseHeader off blocks ++ tail) (i * 8)
        = off + (((blocks.take i).map List.length).sum) ∧
      readBE32 (courseHeader off blocks ++ tail) (i * 8 + 4)
        = (blocks.getD i []).length := by
  induction blocks generalizing off i with
  | nil => simp at hi
  | cons b rest ih =>
    have hsum : off + b.length + ((rest.map List.length).sum) < 4294967296 := by
      simp at hb; omega
    cases i with
    | zero =>
      have hshape : courseHeader off (b :: rest) ++ tail
          = be32 off ++ (be32 b.length ++ (courseHeader (off + b.length) rest ++ tail)) := by
        simp [courseHeader, List.append_assoc]
      constructor
      · rw [show 0 * 8 = 0 by omega, hshape, readBE32_be32 off (by omega)]
        simp
      · rw [show 0 * 8 + 4 = (be32 off).length + 0 by simp [be32], hshape,
          readBE32_append, readBE32_be32 b.length (by omega)]
        simp
    | succ i =>
      have hshape : courseHeader off (b :: rest) ++ tail
          = (be32 off ++ be32 b.length) ++ (courseHeader (off + b.length) rest ++ tail) := by
        simp [courseHeader, List.append_assoc]
      have hlen : (be32 off ++ be32 b.length).length = 8 := by simp [be32]
      have hi' : i < rest.length := by simpa using hi
      obtain ⟨h1, h2⟩ := ih (off + b.length) i hi' hsum
      constructor
      · rw [hshape,
          show (i + 1) * 8 = (be32 off ++ be32 b.length).length + i * 8 by rw [hlen]; omega,
          readBE32_append, h1]
        simp [List.take_succ_cons]
        omega
      · rw [hshape,
          show (i + 1) * 8 + 4 = (be32 off ++ be32 b.length).length + (i * 8 + 4) by
            rw [hlen]; omega,
          readBE32_append, h2]
        simp

theorem drop_append_eq_of_length {a : List Nat} (b : List Nat) {n : Nat}
    (h : a.length = n) : (a ++ b).drop n = b := by
  subst h; exact List.drop_left a b

theorem flatten_drop_sum (blocks : List (List Nat)) (i : Nat) :
    blocks.flatten.drop (((blocks.take i).map List.length).sum) = (blocks.drop i).flatten := by
  induction blocks generalizing i with
  | nil => simp
  | cons b rest ih =>
    cases i with
    | zero => simp
    | succ i =>
      simp only [List.take_succ_cons, List.map_cons, List.sum_cons, List.flatten_cons,
        List.drop_succ_cons]
      rw [show b.length + ((rest.take i).map List.length).sum
          = b.length + ((rest.take i).map List.length).sum from rfl,
        List.drop_append, ih]

theorem splitBlock_joinCourse (blocks : List (List Nat)) (md : List Nat) (i : Nat)
    (h14 : blocks.length = 14) (hi : i < 14) (hmd : md.length % 4 = 0)
    (hb : 112 + md.length + blocks.flatten.length < 4294967296) :
    splitBlock (joinCourse blocks md) i = blocks.getD i [] := by
  have hpad : pad4 md = md := pad4_of_aligned hmd
  have hsum : (blocks.map List.length).sum = blocks.flatten.length := by
    simp [List.length_flatten]
  have hreads := courseHeader_reads blocks (112 + md.length) (pad4 md ++ blocks.flatten) i
    (by omega) (by omega)
  rw [hpad] at hreads
  obtain ⟨hoff, hlen⟩ := hreads
  rw [← List.append_assoc] at hoff hlen
  have hB : joinCourse blocks md
      = courseHeader (112 + md.length) blocks ++ md ++ blocks.flatten := by
    simp [joinCourse, hpad, List.append_assoc]
  unfold splitBlock
  rw [hB, hoff, hlen]
  by_cases hz : (blocks.getD i []).length = 0
  · rw [if_pos hz, List.length_eq_zero.mp hz]
  · rw [if_neg hz]
    have hhd : (courseHeader (112 + md.length) blocks ++ md).length = 112 + md.length := by
      simp [courseHeader_length, h14]
    rw [show 112 + md.length + ((blocks.take i).map List.length).sum
        = (courseHeader (112 + md.length) blocks ++ md).length
          + ((blocks.take i).map List.length).sum from by rw [hhd],
      List.drop_append, flatten_drop_sum]
    have hlt : i < blocks.length := by omega
    have hdropshape : blocks.drop i = blocks.getD i [] :: blocks.drop (i + 1) := by
      rw [List.getD_eq_getElem blocks [] hlt]
      exact (List.drop_eq_getElem_cons hlt)
    rw [hdropshape, List.flatten_cons]
    exact List.take_left _ _

theorem splitMeta_joinCourse (blocks : List (List Nat)) (md : List Nat)
    (h14 : blocks.length = 14) (hmd : md.length % 4 = 0)
    (hb : 112 + md.length + blocks.flatten.length < 4294967296) :
    splitMeta (joinCourse blocks md) = md := by
  have hpad : pad4 md = md := pad4_of_aligned hmd
  have hsum : (blocks.map List.length).sum = blocks.flatten.length := by
    simp [List.length_flatten]
  have hreads := courseHeader_reads blocks (112 + md.length) (pad4 md ++ blocks.flatten) 0
    (by omega) (by omega)
  rw [hpad] at hreads
  obtain ⟨hoff, -⟩ := hreads
  rw [← List.append_assoc] at hoff
  simp only [Nat.zero_mul, List.take_zero, List.map_nil, List.sum_nil, Nat.add_zero] at hoff
  have hB : joinCourse blocks md
      = courseHeader (112 + md.length) blocks ++ md ++ blocks.flatten := by
    simp [joinCourse, hpad, List.append_assoc]
  unfold splitMeta
  rw [hB, hoff]
  have hhd : (courseHeader (112 + md.length) blocks).length = 112 := by
    simp [courseHeader_length, h14]
  by_cases hmde : md.length = 0
  · rw [if_pos (by omega), List.length_eq_zero.mp hmde]
  · rw [if_neg (by omega), List.append_assoc,
      show 112 + md.length - 112 = md.length from by omega,
      drop_append_eq_of_length _ hhd]
    exact List.take_left _ _

theorem splitBlocks_joinCourse (blocks : List (List Nat)) (md : List Nat)
    (h14 : blocks.length = 14) (hmd : md.length % 4 = 0)
    (hb : 112 + md.length + blocks.flatten.length < 4294967296) :
    splitBlocks (joinCourse blocks md) = blocks := by
  apply List.ext_getElem
  · simp [splitBlocks, h14]
  · intro i h1 h2
    simp only [splitBlocks, List.getElem_map, List.getElem_range]
    rw [splitBlock_joinCourse blocks md i h14 (by simpa [splitBlocks] using h1) hmd hb]
    exact List.getD_eq_getElem blocks [] h2

/-- A well-formed course blob: 14 blocks laid out contiguously after a
4-byte-aligned metadata region, with the layout fitting in 32-bit
offsets (the form `LevelUnit.save` produces). -/
def wellFormedCourse (B : List Nat) : Prop :=
  ∃ blocks md, blocks.length = 14 ∧ md.length % 4 = 0 ∧
    112 + md.length + blocks.flatten.length < 4294967296 ∧ B = joinCourse blocks md

/-! ## Tileset object renderer (`ObjectDef`, `RenderObject`,
`RenderStandardRow`, `RenderDiagonalObject`, `PutObjectArray`)

A decoded recipe cell is the tuple produced by `ObjectDef.load`: `b` is
the cell's first byte (`tile[0]`), `t` the tile value (`tile[1]`).
Control cells (high bit of `b` set) are 1-tuples in the source; their
`t` component is never read on the paths the theorems cover. -/

structure ObjCell where
  b : Nat
  t : Int
deriving DecidableEq

instance : Inhabited ObjCell := ⟨⟨0, 0⟩⟩

abbrev ObjRow := List ObjCell

/-- The `0` filler entries of `CreateSection`'s `[0] * width` rows. -/
def padCell : ObjCell := ⟨0, 0⟩

/-- Row partition of the standard branch of `RenderObject`: empty rows
are skipped; rows with bit `0x02` of the first byte go to the repeat
group; other rows go to the before group until a repeat row has been
seen and to the after group afterwards. -/
def partitionRowsGo (found : Bool) (bef inr aft : List ObjRow) :
    List ObjRow → List ObjRow × List ObjRow × List ObjRow
  | [] => (bef, inr, aft)
  | row :: rest =>
    if row.length = 0 then partitionRowsGo found bef inr aft rest
    else if (row.headD padCell).b &&& 2 ≠ 0 then
      partitionRowsGo true bef (inr ++ [row]) aft rest
    else if found then partitionRowsGo found bef inr (aft ++ [row]) rest
    else partitionRowsGo found (bef ++ [row]) inr aft rest

def partitionRows (rows : List ObjRow) : List ObjRow × List ObjRow × List ObjRow :=
  partitionRowsGo false [] [] [] rows

/-- Cell partition of `RenderStandardRow`, testing bit `0x01`. -/
def partitionCellsGo (found : Bool) (bef inr aft : List ObjCell) :
    List ObjCell → List ObjCell × List ObjCell × List ObjCell
  | [] => (bef, inr, aft)
  | c :: rest =>
    if c.b &&& 1 ≠ 0 then partitionCellsGo true bef (inr ++ [c]) aft rest
    else if found then partitionCellsGo found bef inr (aft ++ [c]) rest
    else partitionCellsGo found (bef ++ [c]) inr aft rest

def partitionCells (row : ObjRow) : List ObjCell × List ObjCell × List ObjCell :=
  partitionCellsGo false [] [] [] row

/-- Row selection of the standard branch of `RenderObject` for output
row `y`; the `afterthreshold` comparison is over the integers, as in the
source. -/
def selectStdRow (bef inr aft : List ObjRow) (height y : Nat) : ObjRow :=
  if inr.length = 0 then bef.getD (y % bef.length) []
  else if y < bef.length then bef.getD y []
  else if (y : Int) > (height : Int) - aft.length - 1 then
    aft.getD ((y : Int) - height + aft.length).toNat []
  else inr.getD ((y - bef.length) % inr.length) []

/-- Cell selection of `RenderStandardRow` for output column `x`. -/
def selectStdCell (bef inr aft : List ObjCell) (width x : Nat) : ObjCell :=
  if inr.length = 0 then bef.getD (x % bef.length) padCell
  else if x < bef.length then bef.getD x padCell
  else if (x : Int) > (width : Int) - aft.length - 1 then
    aft.getD ((x : Int) - width + aft.length).toNat padCell
  else inr.getD ((x - bef.length) % inr.length) padCell

/-- `RenderStandardRow`: renders one recipe row into `width` columns. -/
def renderStandardRow (row : ObjRow) (width : Nat) : List Int :=
  match partitionCells row with
  | (bef, inr, aft) =>
    (List.range width).map (fun x => (selectStdCell bef inr aft width x).t)

/-- The standard (non-diagonal) branch of `RenderObject`. -/
def renderStandard (rows : List ObjRow) (width height : Nat) : List (List Int) :=
  match partitionRows rows with
  | (bef, inr, aft) =>
    (List.range height).map
      (fun y => renderStandardRow (selectStdRow bef inr aft height y) width)

/-- `CountTiles`: number of non-control cells in a row. -/
def countTiles (row : ObjRow) : Nat :=
  (row.filter (fun c => c.b &&& 128 = 0)).length

/-- The row width computed by `CreateSection` (max of `CountTiles`). -/
def sectionWidth (rows : List ObjRow) : Nat :=
  (rows.map countTiles).foldl max 0

/-- `CreateSection`: drops control cells and pads every row with the
`0` filler to the section width. -/
def createSection (rows : List ObjRow) : List (List ObjCell) :=
  rows.map (fun row =>
    row.filter (fun c => c.b &&& 128 = 0)
      ++ List.replicate (sectionWidth rows - countTiles row) padCell)

/-- The section-splitting loop of `GetSlopeSections`: a nonempty row
whose first byte has the high bit set begins a new section. -/
def slopeSectionsGo (cur : List ObjRow) :
    List ObjRow → List (List (List ObjCell))
  | [] => [createSection cur]
  | row :: rest =>
    if row.length > 0 ∧ (row.headD padCell).b &&& 128 ≠ 0 then
      createSection cur :: slopeSectionsGo [row] rest
    else slopeSectionsGo (cur ++ [row]) rest

/-- `GetSlopeSections`: the main section and the optional sub-section
(used by thick slopes).  Under the diagonal-dispatch condition the first
row begins the first section. -/
def getSlopeSections (rows : List ObjRow) :
    List (List ObjCell) × Option (List (List ObjCell)) :=
  match rows with
  | [] => ([], none)
  | row :: rest =>
    let sections := slopeSectionsGo [row] rest
    (sections.headD [], if sections.length = 1 then none else some (sections.getD 1 []))

/-- The inner loop of `PutObjectArray`: write one source row into the
destination row, silently skipping columns outside `[0, width)`. -/
def stampRowGo (drow : List Int) (xo : Int) (width : Nat) :
    List ObjCell → List Int
  | [] => drow
  | c :: cs =>
    stampRowGo (if 0 ≤ xo ∧ xo < (width : Int) then drow.set xo.toNat c.t else drow)
      (xo + 1) width cs

/-- `PutObjectArray`: stamp a section block at `(xo, yo)`, silently
skipping rows outside `[0, height)`. -/
def putObjectArray (dest : List (List Int)) (xo yo : Int)
    (block : List (List ObjCell)) (width height : Nat) : List (List Int) :=
  match block with
  | [] => dest
  | srow :: rest =>
    putObjectArray
      (if 0 ≤ yo ∧ yo < (height : Int) then
        dest.set yo.toNat (stampRowGo (dest.getD yo.toNat []) xo width srow)
      else dest)
      xo (yo + 1) rest width height

/-- The direction setup and draw count of `RenderDiagonalObject`. -/
structure DiagSetup where
  main : List (List ObjCell)
  sub : Option (List (List ObjCell))
  goLeft : Bool
  goDown : Bool
  x0 : Int
  y0 : Int
  xi : Int
  yi : Int
  drawAmount : Nat

/-- Parameter derivation of `RenderDiagonalObject`: sections, direction
bits from the first control byte, origin corner and per-iteration
deltas, and the min/max draw count. -/
def diagSetup (rows : List ObjRow) (width height : Nat) (fullslope : Bool) : DiagSetup :=
  let s := getSlopeSections rows
  let cbyte := ((rows.headD []).headD padCell).b
  let goLeft := cbyte &&& 1 ≠ 0
  let goDown := cbyte &&& 2 ≠ 0
  let bw := (s.1.headD []).length
  let bh := s.1.length
  let subH : Nat := match s.2 with | none => 0 | some sb => sb.length
  let drawAmount := if fullslope then max (height / bh) (width / bw)
    else min (height / bh) (width / bw)
  if ¬goLeft ∧ ¬goDown then
    ⟨s.1, s.2, goLeft, goDown, 0, (height : Int) - bh - subH, (bw : Int), -(bh : Int), drawAmount⟩
  else if goLeft ∧ ¬goDown then
    ⟨s.1, s.2, goLeft, goDown, 0, 0, (bw : Int), (bh : Int), drawAmount⟩
  else if ¬goLeft ∧ goDown then
    ⟨s.1, s.2, goLeft, goDown, 0, (subH : Int), (bw : Int), (bh : Int), drawAmount⟩
  else
    ⟨s.1, s.2, goLeft, goDown, 0, (height : Int) - bh, (bw : Int), -(bh : Int), drawAmount⟩

/-- The sub-block x offset of `RenderDiagonalObject`'s draw loop. -/
def subXOff (x : Int) (goLeft : Bool)
    (main sb : List (List ObjCell)) : Int :=
  if goLeft then x + (main.headD []).length - (sb.headD []).length else x

/-- The sub-block y offset of `RenderDiagonalObject`'s draw loop. -/
def subYOff (y : Int) (goDown : Bool)
    (main sb : List (List ObjCell)) : Int :=
  if goDown then y - sb.length else y + main.length

/-- The draw loop of `RenderDiagonalObject`: stamp the main block (and
the sub block, if present) at advancing offsets. -/
def renderDiagGo (dest : List (List Int)) (x y xi yi : Int)
    (main : List (List ObjCell)) (sub : Option (List (List ObjCell)))
    (goLeft goDown : Bool) (width height : Nat) : Nat → List (List Int)
  | 0 => dest
  | n + 1 =>
    let d1 := putObjectArray dest x y main width height
    let d2 := match sub with
      | none => d1
      | some sb =>
        putObjectArray d1 (subXOff x goLeft main sb) (subYOff y goDown main sb)
          sb width height
    renderDiagGo d2 (x + xi) (y + yi) xi yi main sub goLeft goDown width height n

/-- `RenderDiagonalObject`: clear the grid to the hole value `-1`, then
run the draw loop. -/
def renderDiagonal (rows : List ObjRow) (width height : Nat)
    (fullslope : Bool) : List (List Int) :=
  let s := diagSetup rows width height fullslope
  renderDiagGo (List.replicate height (List.replicate width (-1 : Int)))
    s.x0 s.y0 s.xi s.yi s.main s.sub s.goLeft s.goDown width height s.drawAmount

/-- The grid returned by `RenderObject` for unknown objects: `height`
rows of `width` `None` entries. -/
def errorGrid (width height : Nat) : List (List (Option Int)) :=
  List.replicate height (List.replicate width none)

/-- The `TilesetSlotsModEnabled` post-processing pass of `RenderObject`. -/
def applyMod (tileset : Nat) (dest : List (List Int)) : List (List Int) :=
  dest.map (fun row => row.map (fun t =>
    if 0 < t ∧ t < 1024 then (tileset * 256 : Int) + t % 256 else t))

/-- An `ObjectDef` as loaded by `_LoadTileset`. -/
structure ObjectDefn where
  width : Nat
  height : Nat
  rows : List ObjRow
deriving DecidableEq

/-- `RenderObject`.  `none` models an uncaught Python `IndexError`
(tileset slot or object id beyond the respective table); `some` wraps
the returned grid, with `none` cells for the error-marker `None`. -/
def renderObjectE (defs : List (Option (List (Option ObjectDefn))))
    (tsMod : Bool) (tileset objnum width height : Nat) (fullslope : Bool) :
    Option (List (List (Option Int))) :=
  match defs[tileset]? with
  | none => none
  | some none => some (errorGrid width height)
  | some (some tdefs) =>
    match tdefs[objnum]? with
    | none => none
    | some none => some (errorGrid width height)
    | some (some obj) =>
      if obj.rows.length = 0 then some (errorGrid width height)
      else
        let dest := if ((obj.rows.headD []).headD padCell).b &&& 128 ≠ 0 then
            renderDiagonal obj.rows width height fullslope
          else renderStandard obj.rows width height
        some ((if tsMod then applyMod tileset dest else dest).map (fun r => r.map some))

/-! ## Zones and `MapPositionToZoneID`

`ZoneRect` is a `QRectF` over integer level coordinates: `left = x`,
`right = x + w`, `top = y`, `bottom = y + h`; `contains` is edge
inclusive and false for null (zero-width or zero-height) rectangles.
The source compares `sqrt`-distances as floats; for the 16-bit level
coordinates involved, correctly rounded `sqrt` of distinct integer sums
of squares below 2^51 yields distinct, order-preserving doubles, so the
comparison is modelled exactly on squared distances. -/

structure ZoneRec where
  objx : Int
  objy : Int
  width : Int
  height : Int
  zoneID : Nat
deriving DecidableEq

/-- `QRectF.contains` on `ZoneRect`. -/
def rectContains (zx zy zw zh x y : Int) : Bool :=
  let l := min zx (zx + zw)
  let r := max zx (zx + zw)
  let t := min zy (zy + zh)
  let b := max zy (zy + zh)
  decide (l ≠ r) && decide (t ≠ b) &&
    decide (l ≤ x) && decide (x ≤ r) && decide (t ≤ y) && decide (y ≤ b)

/-- The squared point-to-rectangle distance computed by
`MapPositionToZoneID` (two sequential assignments per axis). -/
def zoneDist2 (z : ZoneRec) (x y : Int) : Int :=
  let left := z.objx
  let right := z.objx + z.width
  let top := z.objy
  let bottom := z.objy + z.height
  let xdist0 : Int := if x ≤ left then left - x else 0
  let xdist : Int := if x ≥ right then x - right else xdist0
  let ydist0 : Int := if y ≤ top then top - y else 0
  let ydist : Int := if y ≥ bottom then y - bottom else ydist0
  xdist * xdist + ydist * ydist

/-- The loop of `MapPositionToZoneID`: `id` is the running sequential
index, `mind` the minimal squared distance so far (`-1` = none), `rval`
the `zoneID` of the current nearest zone. -/
def mapGo (x y : Int) : List ZoneRec → Nat → Int → Int → Int
  | [], _, _, rval => rval
  | z :: rest, id, mind, rval =>
    if rectContains z.objx z.objy z.width z.height x y then (id : Int)
    else if zoneDist2 z x y < mind ∨ mind = -1 then
      mapGo x y rest (id + 1) (zoneDist2 z x y) (z.zoneID : Int)
    else mapGo x y rest (id + 1) mind rval

/-- `MapPositionToZoneID`: sequential id of the first containing zone,
else the `zoneID` of the nearest zone, else `-1` for an empty list. -/
def MapPositionToZoneID (zones : List ZoneRec) (x y : Int) : Int :=
  mapGo x y zones 0 (-1) (-1)

/-- The zone byte written by `SaveEntrances` / `SortSpritesByZone`:
the recomputed id, clamped to 0 when the zone list is empty. -/
def zoneByte (zones : List ZoneRec) (x y : Int) : Nat :=
  if MapPositionToZoneID zones x y < 0 then 0
  else (MapPositionToZoneID zones x y).toNat

/-! ## Record codecs -/

/-- `s[o]` as a byte value (missing bytes read as 0). -/
def byteAt (s : List Nat) (o : Nat) : Nat := s.getD o 0

/-- Signed big-endian 32-bit encoding (`struct` format `l`). -/
def se32 (v : Int) : List Nat := be32 (v % 4294967296).toNat

/-- Signed big-endian 16-bit encoding (`struct` format `h`). -/
def se16 (v : Int) : List Nat := be16 (v % 65536).toNat

/-- Signed big-endian 32-bit read. -/
def reads32 (s : List Nat) (o : Nat) : Int :=
  if readBE32 s o < 2147483648 then (readBE32 s o : Int)
  else (readBE32 s o : Int) - 4294967296

/-- Signed big-endian 16-bit read. -/
def reads16 (s : List Nat) (o : Nat) : Int :=
  if readBE16 s o < 32768 then (readBE16 s o : Int)
  else (readBE16 s o : Int) - 65536

/-- An entrance record (`EntranceEditorItem` fields, block 7 order
`>HHxxxxBBBBxBBBHBB`). -/
structure EntranceRec where
  objx : Nat
  objy : Nat
  entid : Nat
  destarea : Nat
  destentrance : Nat
  enttype : Nat
  entzone : Nat
  entlayer : Nat
  entpath : Nat
  entsettings : Nat
  exittomap : Nat
  cpdirection : Nat
deriving DecidableEq

/-- One encoded entrance record (`LevelUnit.SaveEntrances`): the zone
byte is recomputed from the entrance position, not taken from the
record. -/
def encEntrance (zones : List ZoneRec) (e : EntranceRec) : List Nat :=
  be16 e.objx ++ be16 e.objy ++ [0, 0, 0, 0] ++
    [e.entid % 256, e.destarea % 256, e.destentrance % 256, e.enttype % 256] ++
    [0] ++ [zoneByte zones e.objx e.objy % 256, e.entlayer % 256, e.entpath % 256] ++
    be16 e.entsettings ++ [e.exittomap % 256, e.cpdirection % 256]

/-- `LevelUnit.SaveEntrances`: `count * 20` bytes, no terminator. -/
def saveEntrancesBlock (zones : List ZoneRec) (ents : List EntranceRec) : List Nat :=
  (ents.map (encEntrance zones)).flatten

/-- A sprite record (`SpriteEditorItem` fields, block 8). -/
structure SpriteRec where
  type : Nat
  objx : Nat
  objy : Nat
  spritedata : List Nat
deriving DecidableEq

/-- One encoded sprite record (`LevelUnit.SaveSprites`, `>HHH6sBBxx`):
settings byte 6 is replaced by the sprite's `zoneID` attribute `zid`. -/
def encSprite (s : SpriteRec) (zid : Nat) : List Nat :=
  be16 s.type ++ be16 s.objx ++ be16 s.objy ++
    (s.spritedata.take 6 ++ List.replicate (6 - s.spritedata.length) 0) ++
    [zid % 256, s.spritedata.getD 7 0 % 256, 0, 0]

/-- `LevelUnit.SaveSprites` applied to sprites paired with their
`zoneID` attributes: records plus a 4-byte `0xFF` terminator. -/
def saveSpritesFrom (l : List (SpriteRec × Nat)) : List Nat :=
  (l.map (fun p => encSprite p.1 p.2)).flatten ++ [255, 255, 255, 255]

/-- The zone key computed for each sprite by `SortSpritesByZone`. -/
def spriteZone (zones : List ZoneRec) (s : SpriteRec) : Nat :=
  zoneByte zones s.objx s.objy

/-- Append a sprite to its zone's group, creating the group at the end
on first sight (the `split` dict plus `zones` key list). -/
def addToGroups (groups : List (Nat × List (SpriteRec × Nat))) (z : Nat)
    (s : SpriteRec × Nat) : List (Nat × List (SpriteRec × Nat)) :=
  match groups with
  | [] => [(z, [s])]
  | (k, g) :: rest =>
    if k = z then (k, g ++ [s]) :: rest else (k, g) :: addToGroups rest z s

/-- The grouping loop of `SortSpritesByZone`; the `zoneID` attribute
assignment is modelled by pairing each sprite with its key. -/
def buildGroups (zones : List ZoneRec) :
    List SpriteRec → List (Nat × List (SpriteRec × Nat)) → List (Nat × List (SpriteRec × Nat))
  | [], groups => groups
  | s :: rest, groups =>
    buildGroups zones rest (addToGroups groups (spriteZone zones s) (s, spriteZone zones s))

/-- Insertion into a sorted key list (models `list.sort()` on the
distinct first-seen keys). -/
def insertKey (k : Nat) : List Nat → List Nat
  | [] => [k]
  | x :: xs => if k ≤ x then k :: x :: xs else x :: insertKey k xs

/-- Insertion sort of the key list. -/
def sortKeys : List Nat → List Nat
  | [] => []
  | x :: xs => insertKey x (sortKeys xs)

/-- Group lookup by key (the `split[z]` accesses). -/
def lookupGroup (groups : List (Nat × List (SpriteRec × Nat))) (z : Nat) :
    List (SpriteRec × Nat) :=
  match groups with
  | [] => []
  | (k, g) :: rest => if k = z then g else lookupGroup rest z

/-- `LevelUnit.SortSpritesByZone`: stable regrouping of the sprite list
by ascending recomputed zone id, with the `zoneID` attribute overwritten
(the `Nat` component of each pair). -/
def sortSpritesByZone (zones : List ZoneRec) (sprites : List SpriteRec) :
    List (SpriteRec × Nat) :=
  let groups := buildGroups zones sprites []
  ((sortKeys (groups.map Prod.fst)).map (lookupGroup groups)).flatten

/-- The sprite block written by `LevelUnit.save`: `SortSpritesByZone`
followed by `SaveSprites`. -/
def saveSpritesBlock (zones : List ZoneRec) (sprites : List SpriteRec) : List Nat :=
  saveSpritesFrom (sortSpritesByZone zones sprites)

/-- A camera profile record: the `[data[4], data[1], data[2]]` triple
kept by `LoadCamProfiles` (event id, camera mode, zoom index). -/
structure CamProfileRec where
  eventid : Nat
  mode : Nat
  zoomidx : Nat
deriving DecidableEq

/-- One encoded camera profile (`LevelUnit.SaveCamProfiles`): every
real profile points at the synthetic bounds id `bdngid`. -/
def encCamProfile (bdngid : Nat) (p : CamProfileRec) : List Nat :=
  List.replicate 12 0 ++ [bdngid % 256, p.mode % 256, p.zoomidx % 256, 0] ++
    [0, 0] ++ [p.eventid % 256] ++ [0]

/-- The synthetic all-defaults bounds record appended by
`SaveCamProfiles` (`bdngstruct.pack(0, 0, 0, 0, bdngid, 15, 0, 0)`). -/
def encSyntheticBounds (bdngid : Nat) : List Nat :=
  List.replicate 16 0 ++ be16 bdngid ++ [0, 15] ++ [0, 0, 0, 0]

/-- `LevelUnit.SaveCamProfiles`: returns the new camera-profile block
(block 12) and the new zone-bounds block (block 3).  For a nonempty
profile list, a throwaway all-zero profile is emitted first and a
synthetic defaults bounds record is appended to the bounds block. -/
def saveCamProfiles (camprofiles : List CamProfileRec) (block2 : List Nat) :
    List Nat × List Nat :=
  if camprofiles = [] then ([], block2)
  else
    (List.replicate 20 0 ++ (camprofiles.map (encCamProfile (block2.length / 20))).flatten,
      block2 ++ encSyntheticBounds (block2.length / 20))

/-- The per-zone fields written into the block-3 bounds records by
`LevelUnit.SaveZones`. -/
structure ZoneBoundsFields where
  yupperbound : Int
  ylowerbound : Int
  yupperbound2 : Int
  ylowerbound2 : Int
  mpcamzoomadjust : Nat
  yupperbound3 : Int
  ylowerbound3 : Int
deriving DecidableEq

/-- One block-3 bounds record written by `SaveZones` (`>4lHHhh`); the
id field is the zone's index `i`. -/
def encZoneBounds (i : Nat) (z : ZoneBoundsFields) : List Nat :=
  se32 z.yupperbound ++ se32 z.ylowerbound ++ se32 z.yupperbound2 ++
    se32 z.ylowerbound2 ++ be16 i ++ be16 z.mpcamzoomadjust ++
    se16 z.yupperbound3 ++ se16 z.ylowerbound3

/-- The block-3 output of `LevelUnit.SaveZones`. -/
def saveZoneBoundsBlock (zs : List ZoneBoundsFields) : List Nat :=
  (zs.enum.map (fun p => encZoneBounds p.1 p.2)).flatten

/-- A decoded block-3 bounds record (the 8-element lists built by
`LoadZones`). -/
structure BoundsRec where
  f0 : Int
  f1 : Int
  f2 : Int
  f3 : Int
  f4 : Nat
  f5 : Nat
  f6 : Int
  f7 : Int
deriving DecidableEq

/-- One bounds record read at offset `o` (`LevelUnit.LoadZones`). -/
def readBounds (s : List Nat) (o : Nat) : BoundsRec :=
  ⟨reads32 s o, reads32 s (o + 4), reads32 s (o + 8), reads32 s (o + 12),
    readBE16 s (o + 16), readBE16 s (o + 18), reads16 s (o + 20), reads16 s (o + 22)⟩

/-- `LoadZones`' block-3 decode: 24-byte stride. -/
def loadZoneBounds (block : List Nat) : List BoundsRec :=
  (List.range (block.length / 24)).map (fun i => readBounds block (i * 24))

/-- The bounds-resolution scan of `ZoneItem.__init__`
(`for block in boundings: if block[4] == id: bounding = block`): a
linear scan in which the last match wins. -/
def findBounds (boundings : List BoundsRec) (id : Nat) : Option BoundsRec :=
  boundings.foldl (fun acc b => if b.f4 = id then some b else acc) none

/-- A path node (`>HHffhxx`).  The two 32-bit float payloads `speed`
and `accel` are modelled by their big-endian bit patterns: every value
a load produces is an exact `float32`, and on those `pack` after
`unpack` is the identity on the four bytes. -/
structure PathNodeRec where
  x : Nat
  y : Nat
  speed : Nat
  accel : Nat
  delay : Int
deriving DecidableEq

/-- A path (`pathdata` entries): id, node list, loop flag. -/
structure PathRec where
  id : Nat
  nodes : List PathNodeRec
  loops : Bool
deriving DecidableEq

/-- One block-12 path record (`>BxHHH`). -/
def encPathRec (id nodeindex count : Nat) (loops : Bool) : List Nat :=
  [id % 256, 0] ++ be16 nodeindex ++ be16 count ++ be16 (if loops then 2 else 0)

/-- The write loop of `LevelUnit.SavePaths`: zero-node paths are
skipped; `nodeindex` accumulates the node counts. -/
def savePathsGo (nodeindex : Nat) : List PathRec → List Nat
  | [] => []
  | p :: rest =>
    if p.nodes.length < 1 then savePathsGo nodeindex rest
    else encPathRec p.id nodeindex p.nodes.length p.loops ++
      savePathsGo (nodeindex + p.nodes.length) rest

/-- The block-12 buffer of `LevelUnit.SavePaths`: allocated at
`8 * len(pathdata)` bytes, written contiguously from the start, with the
slots of skipped paths left as trailing zero bytes. -/
def savePathsBlock (paths : List PathRec) : List Nat :=
  savePathsGo 0 paths ++
    List.replicate (8 * paths.length - (savePathsGo 0 paths).length) 0

/-- A layer object (`LevelObjectEditorItem` fields used by `SaveLayer`). -/
structure LayerObjRec where
  tileset : Nat
  type : Nat
  objx : Nat
  objy : Nat
  width : Nat
  height : Nat
deriving DecidableEq

/-- One encoded layer object (`LevelUnit.SaveLayer`, `>HHHHH`). -/
def encLayerObj (o : LayerObjRec) : List Nat :=
  be16 (o.tileset <<< 12 ||| o.type) ++ be16 o.objx ++ be16 o.objy ++
    be16 o.width ++ be16 o.height

/-- `LevelUnit.SaveLayer`: records plus a 2-byte `0xFF` terminator. -/
def saveLayerBlock (layer : List LayerObjRec) : List Nat :=
  (layer.map encLayerObj).flatten ++ [255, 255]

/-- C2: splitting a well-formed course blob into the 14 blocks (14
big-endian `(offset, length)` pairs in the first 112 bytes, zero length
giving an empty block) plus the metadata region at `0x70`, then
re-joining (rebuilt 112-byte header, metadata padded to a 4-byte
boundary at `0x70`, 14 blocks contiguous in index order) reproduces the
blob byte for byte. -/
theorem block_table_round_trip (B : List Nat) (h : wellFormedCourse B) :
    joinCourse (splitBlocks B) (splitMeta B) = B := by
  obtain ⟨blocks, md, h14, hmd, hb, rfl⟩ := h
  rw [splitBlocks_joinCourse blocks md h14 hmd hb,
    splitMeta_joinCourse blocks md h14 hmd hb]

/-- Witness for C2 at a concrete blob: block 0 = `[1, 2, 3]`, blocks
1–13 empty, metadata `[9, 8, 7, 6]`. -/
theorem block_table_round_trip_witness :
    wellFormedCourse (joinCourse ([[1, 2, 3]] ++ List.replicate 13 []) [9, 8, 7, 6]) ∧
      joinCourse
        (splitBlocks (joinCourse ([[1, 2, 3]] ++ List.replicate 13 []) [9, 8, 7, 6]))
        (splitMeta (joinCourse ([[1, 2, 3]] ++ List.replicate 13 []) [9, 8, 7, 6]))
        = joinCourse ([[1, 2, 3]] ++ List.replicate 13 []) [9, 8, 7, 6] := by
  have hwf : wellFormedCourse (joinCourse ([[1, 2, 3]] ++ List.replicate 13 []) [9, 8, 7, 6]) :=
    ⟨[[1, 2, 3]] ++ List.replicate 13 [], [9, 8, 7, 6], by decide, by decide, by decide, rfl⟩
  exact ⟨hwf, block_table_round_trip _ hwf⟩

/-! ## C9: unknown-object rendering -/

/-- A tileset table with slot 0 loaded as the usual 256-entry all-`None`
definitions list (`defs = [None]*256` in `_LoadTileset`). -/
def defsAllNone : List (Option (List (Option ObjectDefn))) :=
  [some (List.replicate 256 none), none, none, none]

/-- Counterexample to C9 as stated: with slot 0 loaded, rendering object
id 256 (one past the 256-entry definitions table) is a Python
`IndexError` (`none` in the model), not an error-marker grid. -/
theorem unknown_object_raises_beyond_table :
    renderObjectE defsAllNone false 0 256 2 2 false = none ∧
      renderObjectE defsAllNone false 0 256 2 2 false ≠ some (errorGrid 2 2) := by
  have h : renderObjectE defsAllNone false 0 256 2 2 false = none := by
    unfold renderObjectE defsAllNone
    rw [show ([some (List.replicate 256 (none : Option ObjectDefn)), none, none, none])[0]?
        = some (some (List.replicate 256 none)) from rfl]
    dsimp only
    rw [show (List.replicate 256 (none : Option ObjectDefn))[256]? = none from
      List.getElem?_eq_none (by rw [List.length_replicate])]
  exact ⟨h, by rw [h]; simp⟩

/-- C9 (amended): for an object id within the definitions table,
rendering an object whose tileset slot is unloaded, whose definition
entry is `None`, or whose definition has no rows, returns the full
`height × width` error-marker grid without raising; ids beyond the
table raise `IndexError`. -/
theorem unknown_object_error_grid
    (defs : List (Option (List (Option ObjectDefn)))) (tsMod : Bool)
    (tileset objnum width height : Nat) (fullslope : Bool)
    (h : defs[tileset]? = some none ∨
      ∃ tdefs, defs[tileset]? = some (some tdefs) ∧
        (tdefs[objnum]? = some none ∨
          ∃ obj, tdefs[objnum]? = some (some obj) ∧ obj.rows = [])) :
    renderObjectE defs tsMod tileset objnum width height fullslope
      = some (errorGrid width height) := by
  unfold renderObjectE
  rcases h with h | ⟨tdefs, ht, h2⟩
  · rw [h]
  · rw [ht]
    dsimp only
    rcases h2 with h2 | ⟨obj, ho, hr⟩
    · rw [h2]
    · rw [ho]
      dsimp only
      simp [hr]

/-- Witness for C9 (amended) at slot 0, object id 5 (entry `None`). -/
theorem unknown_object_error_grid_witness :
    renderObjectE defsAllNone false 0 5 3 2 false = some (errorGrid 3 2) := by
  apply unknown_object_error_grid
  refine Or.inr ⟨List.replicate 256 none, rfl, Or.inl ?_⟩
  rw [List.getElem?_replicate]
  simp

/-! ## C6: terminator sentinels -/

/-- Counterexample to C6 as stated: `SaveEntrances` emits exactly
`count * 20` bytes and no `0xFF` terminator after the last record (a
single all-zero entrance yields 20 bytes ending in `0`). -/
theorem entrance_block_has_no_terminator :
    (saveEntrancesBlock [] [⟨0, 0, 0, 0, 0, 0, 0, 0, 0, 0, 0, 0⟩]).length = 20 ∧
      (saveEntrancesBlock [] [⟨0, 0, 0, 0, 0, 0, 0, 0, 0, 0, 0, 0⟩]).drop 20 = [] ∧
      (saveEntrancesBlock [] [⟨0, 0, 0, 0, 0, 0, 0, 0, 0, 0, 0, 0⟩]).getLast? ≠ some 255 := by
  decide

theorem length_flatten_map_const {α : Type} (f : α → List Nat) (c : Nat)
    (h : ∀ x, (f x).length = c) (l : List α) :
    ((l.map f).flatten).length = c * l.length := by
  induction l with
  | nil => simp
  | cons a rest ih => simp [h, ih, Nat.mul_succ]; omega

theorem encEntrance_length (zones : List ZoneRec) (e : EntranceRec) :
    (encEntrance zones e).length = 20 := by
  simp [encEntrance, be16]

theorem encSprite_length (p : SpriteRec × Nat) : (encSprite p.1 p.2).length = 16 := by
  simp [encSprite, be16]
  omega

theorem encLayerObj_length (o : LayerObjRec) : (encLayerObj o).length = 10 := by
  simp [encLayerObj, be16]

/-- C6 (amended): the sprite encoder emits `count * 16` record bytes
followed by a 4-byte `0xFF` terminator, the object-layer encoder
`count * 10` record bytes followed by a 2-byte `0xFF` terminator, and
the entrance encoder exactly `count * 20` bytes with no terminator. -/
theorem terminator_sentinels (zones : List ZoneRec) (ents : List EntranceRec)
    (sprites : List (SpriteRec × Nat)) (layer : List LayerObjRec) :
    (saveEntrancesBlock zones ents).length = 20 * ents.length ∧
      (saveSpritesFrom sprites).length = 16 * sprites.length + 4 ∧
      (saveSpritesFrom sprites).drop (16 * sprites.length) = [255, 255, 255, 255] ∧
      (saveLayerBlock layer).length = 10 * layer.length + 2 ∧
      (saveLayerBlock layer).drop (10 * layer.length) = [255, 255] := by
  have he : ((ents.map (encEntrance zones)).flatten).length = 20 * ents.length :=
    length_flatten_map_const _ 20 (encEntrance_length zones) ents
  have hs : ((sprites.map (fun p => encSprite p.1 p.2)).flatten).length
      = 16 * sprites.length :=
    length_flatten_map_const _ 16 encSprite_length sprites
  have hl : ((layer.map encLayerObj).flatten).length = 10 * layer.length :=
    length_flatten_map_const _ 10 encLayerObj_length layer
  refine ⟨he, ?_, ?_, ?_, ?_⟩
  · simp [saveSpritesFrom, hs]
  · exact drop_append_eq_of_length _ hs
  · simp [saveLayerBlock, hl]
  · exact drop_append_eq_of_length _ hl

/-! ## C5: zero-node path drop -/

/-- Counterexample to C5 as stated: a single zero-node path produces an
8-byte all-zero block, not an empty one — the block length is 8 times
the total number of paths, not 8 times the number of non-empty paths. -/
theorem zero_node_path_leaves_padding :
    savePathsBlock [⟨5, [], false⟩] = List.replicate 8 0 ∧
      (savePathsBlock [⟨5, [], false⟩]).length
        ≠ 8 * ([(⟨5, [], false⟩ : PathRec)].filter (fun p => 1 ≤ p.nodes.length)).length := by
  decide

/-- The record stream for a list of paths starting at node index `s`. -/
def pathRecordsFor (s : Nat) : List PathRec → List Nat
  | [] => []
  | p :: rest => encPathRec p.id s p.nodes.length p.loops ++
      pathRecordsFor (s + p.nodes.length) rest

theorem savePathsGo_eq_filter (s : Nat) (paths : List PathRec) :
    savePathsGo s paths = pathRecordsFor s (paths.filter (fun p => 1 ≤ p.nodes.length)) := by
  induction paths generalizing s with
  | nil => simp [savePathsGo, pathRecordsFor]
  | cons p rest ih =>
    by_cases hp : p.nodes.length < 1
    · have : p.nodes.length = 0 := by omega
      simp [savePathsGo, hp, ih, List.filter, decide_eq_true_eq, this]
    · simp only [savePathsGo, if_neg hp]
      rw [List.filter_cons_of_pos (by simpa using Nat.le_of_not_lt hp)]
      simp [pathRecordsFor, ih]

theorem pathRecordsFor_length (s : Nat) (l : List PathRec) :
    (pathRecordsFor s l).length = 8 * l.length := by
  induction l generalizing s with
  | nil => simp [pathRecordsFor]
  | cons p rest ih => simp [pathRecordsFor, encPathRec, be16, ih]; omega

/-- C5 (amended): the encoder writes one 8-byte record per non-empty
path, contiguously from the start of the block in path order (start
index = running node total); zero-node paths contribute no record
bytes, but the block is allocated at 8 bytes per path, so dropped paths
leave trailing zero bytes and the block length is `8 * (total paths)`. -/
theorem path_block_layout (paths : List PathRec) :
    (savePathsBlock paths).length = 8 * paths.length ∧
      (savePathsBlock paths).take
          (8 * (paths.filter (fun p => 1 ≤ p.nodes.length)).length)
        = pathRecordsFor 0 (paths.filter (fun p => 1 ≤ p.nodes.length)) ∧
      (savePathsBlock paths).drop
          (8 * (paths.filter (fun p => 1 ≤ p.nodes.length)).length)
        = List.replicate
            (8 * (paths.length - (paths.filter (fun p => 1 ≤ p.nodes.length)).length)) 0 := by
  have hgo : (savePathsGo 0 paths).length
      = 8 * (paths.filter (fun p => 1 ≤ p.nodes.length)).length := by
    rw [savePathsGo_eq_filter]; exact pathRecordsFor_length 0 _
  have hle : (paths.filter (fun p => 1 ≤ p.nodes.length)).length ≤ paths.length :=
    List.length_filter_le _ _
  refine ⟨?_, ?_, ?_⟩
  · simp only [savePathsBlock, List.length_append, List.length_replicate, hgo]
    omega
  · unfold savePathsBlock
    rw [← hgo, List.take_left]
    exact savePathsGo_eq_filter 0 paths
  · unfold savePathsBlock
    rw [drop_append_eq_of_length _ hgo.symm.symm]
    · congr 1
      omega

/-! ## C1: standard-mode rendering -/

/-- Claim-side row-selection formula (spec wording of C1):
`before[y % len(before)]` before the repeat region, `after[y - height +
len(after)]` strictly after it, the repeat group cycling otherwise. -/
def claimRowSelect (bef inr aft : List ObjRow) (height y : Nat) : ObjRow :=
  if inr.length = 0 then bef.getD (y % bef.length) []
  else if y < bef.length then bef.getD (y % bef.length) []
  else if (y : Int) > (height : Int) - aft.length - 1 then
    aft.getD ((y : Int) - height + aft.length).toNat []
  else inr.getD ((y - bef.length) % inr.length) []

/-- Claim-side cell-selection formula (spec wording of C1). -/
def claimCellSelect (bef inr aft : List ObjCell) (width x : Nat) : ObjCell :=
  if inr.length = 0 then bef.getD (x % bef.length) padCell
  else if x < bef.length then bef.getD (x % bef.length) padCell
  else if (x : Int) > (width : Int) - aft.length - 1 then
    aft.getD ((x : Int) - width + aft.length).toNat padCell
  else inr.getD ((x - bef.length) % inr.length) padCell

theorem claimRowSelect_eq_selectStdRow (bef inr aft : List ObjRow) (height y : Nat) :
    claimRowSelect bef inr aft height y = selectStdRow bef inr aft height y := by
  unfold claimRowSelect selectStdRow
  by_cases h1 : inr.length = 0
  · simp [h1]
  · by_cases h2 : y < bef.length
    · simp [h1, h2, Nat.mod_eq_of_lt h2]
    · simp [h1, h2]

theorem claimCellSelect_eq_selectStdCell (bef inr aft : List ObjCell) (width x : Nat) :
    claimCellSelect bef inr aft width x = selectStdCell bef inr aft width x := by
  unfold claimCellSelect selectStdCell
  by_cases h1 : inr.length = 0
  · simp [h1]
  · by_cases h2 : x < bef.length
    · simp [h1, h2, Nat.mod_eq_of_lt h2]
    · simp [h1, h2]

/-- C1: standard-mode rendering.  (i) The rendered grid follows the
claim's row-selection formula over the before/repeat/after partition of
the non-empty rows by bit `0x02`; (ii) each row renders by the same
formula over the width by bit `0x01`; (iii) a single-row, non-repeating
1×1 object at width 5, height 5 tiles its sole recipe tile everywhere;
(iv) `RenderObject` dispatches a non-diagonal definition to exactly this
standard rendering. -/
theorem standard_mode_rendering :
    (∀ (rows : List ObjRow) (width height : Nat),
      renderStandard rows width height
        = (List.range height).map (fun y =>
            match partitionRows rows with
            | (bef, inr, aft) =>
              renderStandardRow (claimRowSelect bef inr aft height y) width)) ∧
    (∀ (row : ObjRow) (width : Nat),
      renderStandardRow row width
        = (List.range width).map (fun x =>
            match partitionCells row with
            | (bef, inr, aft) => (claimCellSelect bef inr aft width x).t)) ∧
    (∀ (b : Nat) (t : Int), b &&& 128 = 0 → b &&& 2 = 0 → b &&& 1 = 0 →
      renderStandard [[⟨b, t⟩]] 5 5 = List.replicate 5 (List.replicate 5 t)) ∧
    (∀ (defs : List (Option (List (Option ObjectDefn)))) (tileset objnum width height : Nat)
      (tdefs : List (Option ObjectDefn)) (obj : ObjectDefn),
      defs[tileset]? = some (some tdefs) → tdefs[objnum]? = some (some obj) →
      obj.rows ≠ [] → ((obj.rows.headD []).headD padCell).b &&& 128 = 0 →
      renderObjectE defs false tileset objnum width height false
        = some ((renderStandard obj.rows width height).map (fun r => r.map some))) := by
  refine ⟨?_, ?_, ?_, ?_⟩
  · intro rows width height
    unfold renderStandard
    rcases partitionRows rows with ⟨bef, inr, aft⟩
    simp only [claimRowSelect_eq_selectStdRow]
  · intro row width
    unfold renderStandardRow
    rcases partitionCells row with ⟨bef, inr, aft⟩
    simp only [claimCellSelect_eq_selectStdCell]
  · intro b t hb80 hb2 hb1
    have hpr : partitionRows [[⟨b, t⟩]] = ([[⟨b, t⟩]], [], []) := by
      simp [partitionRows, partitionRowsGo, hb2]
    have hpc : partitionCells [⟨b, t⟩] = ([⟨b, t⟩], [], []) := by
      simp [partitionCells, partitionCellsGo, hb1]
    have hrowsel : ∀ y : Nat, selectStdRow [[⟨b, t⟩]] [] [] 5 y = [⟨b, t⟩] := by
      intro y; simp [selectStdRow, Nat.mod_one]
    have hcellsel : ∀ x : Nat, selectStdCell [⟨b, t⟩] [] [] 5 x = ⟨b, t⟩ := by
      intro x; simp [selectStdCell, Nat.mod_one]
    have hrow : renderStandardRow [⟨b, t⟩] 5 = List.replicate 5 t := by
      unfold renderStandardRow
      rw [hpc]
      simp only [hcellsel]
      rw [show (List.range 5).map (fun _ => t) = List.replicate 5 t from by
        rw [List.map_const', List.length_range]]
    unfold renderStandard
    rw [hpr]
    simp only [hrowsel, hrow]
    rw [List.map_const', List.length_range]
  · intro defs tileset objnum width height tdefs obj ht ho hne hstd
    unfold renderObjectE
    rw [ht]
    dsimp only
    rw [ho]
    dsimp only
    rw [if_neg (by simpa using hne)]
    rw [if_neg (not_not_intro hstd), if_neg (show ¬(false = true) from by decide)]

/-- Witness for C1 at the concrete 1×1 object `[[⟨0, 7⟩]]` in a
one-slot definitions table. -/
theorem standard_mode_rendering_witness :
    renderStandard [[⟨0, 7⟩]] 5 5 = List.replicate 5 (List.replicate 5 (7 : Int)) ∧
      renderObjectE [some [some ⟨1, 1, [[⟨0, 7⟩]]⟩]] false 0 0 5 5 false
        = some ((renderStandard [[⟨0, 7⟩]] 5 5).map (fun r => r.map some)) := by
  constructor
  · exact standard_mode_rendering.2.2.1 0 7 (by decide) (by decide) (by decide)
  · exact standard_mode_rendering.2.2.2 [some [some ⟨1, 1, [[⟨0, 7⟩]]⟩]] 0 0 5 5
      [some ⟨1, 1, [[⟨0, 7⟩]]⟩] ⟨1, 1, [[⟨0, 7⟩]]⟩ rfl rfl (by decide) (by decide)

/-! ## C4: zone-id recomputation at encode -/

/-- The containment test of the `MapPositionToZoneID` loop on one zone. -/
def zoneContains (z : ZoneRec) (x y : Int) : Bool :=
  rectContains z.objx z.objy z.width z.height x y

theorem zoneDist2_nonneg (z : ZoneRec) (x y : Int) : 0 ≤ zoneDist2 z x y := by
  unfold zoneDist2
  exact add_nonneg (mul_self_nonneg _) (mul_self_nonneg _)

theorem mapGo_of_contains (x y : Int) :
    ∀ (zs : List ZoneRec) (id : Nat) (mind rval : Int) (i : Nat),
      zs.findIdx? (fun z => zoneContains z x y) = some i →
      mapGo x y zs id mind rval = ((id + i : Nat) : Int) := by
  intro zs
  induction zs with
  | nil => intro id mind rval i h; simp at h
  | cons z rest ih =>
    intro id mind rval i h
    by_cases hc : zoneContains z x y
    · rw [List.findIdx?_cons, if_pos hc] at h
      have hi : i = 0 := (Option.some.inj h).symm
      subst hi
      unfold mapGo
      rw [if_pos (by simpa [zoneContains] using hc)]
      simp
    · rw [List.findIdx?_cons, if_neg hc, List.findIdx?_succ] at h
      rcases Option.map_eq_some'.mp h with ⟨i', hi', rfl⟩
      unfold mapGo
      rw [if_neg (by simpa [zoneContains] using hc)]
      by_cases himp : zoneDist2 z x y < mind ∨ mind = -1
      · rw [if_pos himp, ih (id + 1) (zoneDist2 z x y) z.zoneID i' hi']
        congr 1
        omega
      · rw [if_neg himp, ih (id + 1) mind rval i' hi']
        congr 1
        omega

theorem mapGo_acc_spec (x y : Int) :
    ∀ (zs : List ZoneRec) (id : Nat) (mind rval : Int),
      (∀ z ∈ zs, zoneContains z x y = false) →
      0 ≤ mind →
      (mapGo x y zs id mind rval = rval ∧ ∀ z ∈ zs, mind ≤ zoneDist2 z x y) ∨
      (∃ j : Nat, ∃ hj : j < zs.length,
        mapGo x y zs id mind rval = ((zs.get ⟨j, hj⟩).zoneID : Int) ∧
        zoneDist2 (zs.get ⟨j, hj⟩) x y < mind ∧
        (∀ z ∈ zs, zoneDist2 (zs.get ⟨j, hj⟩) x y ≤ zoneDist2 z x y) ∧
        (∀ k (hk : k < j), zoneDist2 (zs.get ⟨j, hj⟩) x y
          < zoneDist2 (zs.get ⟨k, Nat.lt_trans hk hj⟩) x y)) := by
  intro zs
  induction zs with
  | nil => intro id mind rval _ _; left; exact ⟨rfl, by simp⟩
  | cons z rest ih =>
    intro id mind rval hnc hm
    have hz : zoneContains z x y = false := hnc z (by simp)
    have hrest : ∀ w ∈ rest, zoneContains w x y = false := by
      intro w hw; exact hnc w (by simp [hw])
    unfold mapGo
    rw [if_neg (by simp [zoneContains] at hz ⊢; exact hz)]
    by_cases himp : zoneDist2 z x y < mind ∨ mind = -1
    · have hd : zoneDist2 z x y < mind := by
        rcases himp with h | h
        · exact h
        · omega
      rw [if_pos himp]
      rcases ih (id + 1) (zoneDist2 z x y) z.zoneID hrest (zoneDist2_nonneg z x y)
        with ⟨heq, hall⟩ | ⟨j, hj, heq, hlt, hall, hfirst⟩
      · right
        refine ⟨0, by simp, by simpa using heq, by simpa using hd, ?_, ?_⟩
        · intro w hw
          rcases List.mem_cons.mp hw with rfl | hw
          · simp
          · simpa using hall w hw
        · intro k hk
          omega
      · right
        refine ⟨j + 1, by simpa using Nat.succ_lt_succ hj, by simpa using heq, ?_, ?_, ?_⟩
        · simp only [List.get_cons_succ]
          omega
        · intro w hw
          rcases List.mem_cons.mp hw with rfl | hw
          · simp only [List.get_cons_succ]
            omega
          · simpa using hall w hw
        · intro k hk
          cases k with
          | zero =>
            simp only [List.get_cons_succ]
            exact hlt
          | succ k =>
            simpa using hfirst k (by omega)
    · have hd : mind ≤ zoneDist2 z x y := by
        push_neg at himp
        exact himp.1
      rw [if_neg himp]
      rcases ih (id + 1) mind rval hrest hm with ⟨heq, hall⟩ | ⟨j, hj, heq, hlt, hall, hfirst⟩
      · left
        refine ⟨heq, ?_⟩
        intro w hw
        rcases List.mem_cons.mp hw with rfl | hw
        · exact hd
        · exact hall w hw
      · right
        refine ⟨j + 1, by simpa using Nat.succ_lt_succ hj, by simpa using heq, ?_, ?_, ?_⟩
        · simpa using hlt
        · intro w hw
          rcases List.mem_cons.mp hw with rfl | hw
          · simp only [List.get_cons_succ]
            omega
          · simpa using hall w hw
        · intro k hk
          cases k with
          | zero =>
            simp only [List.get_cons_succ]
            exact lt_of_lt_of_le hlt hd
          | succ k =>
            simpa using hfirst k (by omega)

/-- C4: the zone id recomputed at encode time is (i) the sequential id
of the first zone in list order whose rectangle contains the position;
(ii) otherwise the `zoneID` of the nearest zone by (squared) Euclidean
distance to the zone rectangles, first zone winning ties; (iii) `-1`
mapped to byte 0 when the zone list is empty; and (iv) the byte at
offset 13 of every encoded entrance record is exactly this recomputed
value, not the record's own zone field. -/
theorem zone_id_recomputed_at_encode :
    (∀ (zones : List ZoneRec) (x y : Int) (i : Nat),
      zones.findIdx? (fun z => zoneContains z x y) = some i →
      MapPositionToZoneID zones x y = (i : Int)) ∧
    (∀ (zones : List ZoneRec) (x y : Int),
      zones.findIdx? (fun z => zoneContains z x y) = none → zones ≠ [] →
      ∃ j : Nat, ∃ hj : j < zones.length,
        MapPositionToZoneID zones x y = ((zones.get ⟨j, hj⟩).zoneID : Int) ∧
        (∀ z ∈ zones, zoneDist2 (zones.get ⟨j, hj⟩) x y ≤ zoneDist2 z x y) ∧
        (∀ k (hk : k < j), zoneDist2 (zones.get ⟨j, hj⟩) x y
          < zoneDist2 (zones.get ⟨k, Nat.lt_trans hk hj⟩) x y)) ∧
    (∀ x y : Int, MapPositionToZoneID [] x y = -1 ∧ zoneByte [] x y = 0) ∧
    (∀ (zones : List ZoneRec) (e : EntranceRec),
      (encEntrance zones e).getD 13 0
        = zoneByte zones (e.objx : Int) (e.objy : Int) % 256) := by
  refine ⟨?_, ?_, ?_, ?_⟩
  · intro zones x y i h
    simpa using mapGo_of_contains x y zones 0 (-1) (-1) i h
  · intro zones x y hnone hne
    have hnc : ∀ z ∈ zones, zoneContains z x y = false := by
      intro z hz
      exact List.findIdx?_eq_none_iff.mp hnone z hz
    match zones, hne with
    | z :: rest, _ =>
      have hz : zoneContains z x y = false := hnc z (by simp)
      have hrest : ∀ w ∈ rest, zoneContains w x y = false := by
        intro w hw; exact hnc w (by simp [hw])
      have hstep : MapPositionToZoneID (z :: rest) x y
          = mapGo x y rest 1 (zoneDist2 z x y) z.zoneID := by
        unfold MapPositionToZoneID
        rw [show mapGo x y (z :: rest) 0 (-1) (-1)
            = if rectContains z.objx z.objy z.width z.height x y = true then ((0 : Nat) : Int)
              else if zoneDist2 z x y < (-1 : Int) ∨ (-1 : Int) = -1 then
                mapGo x y rest (0 + 1) (zoneDist2 z x y) (z.zoneID : Int)
              else mapGo x y rest (0 + 1) (-1) (-1) from rfl]
        rw [if_neg (by simp [zoneContains] at hz ⊢; exact hz), if_pos (Or.inr rfl)]
      rcases mapGo_acc_spec x y rest 1 (zoneDist2 z x y) z.zoneID hrest
        (zoneDist2_nonneg z x y) with ⟨heq, hall⟩ | ⟨j, hj, heq, hlt, hall, hfirst⟩
      · refine ⟨0, by simp, by rw [hstep]; simpa using heq, ?_, ?_⟩
        · intro w hw
          rcases List.mem_cons.mp hw with rfl | hw
          · simp
          · simpa using hall w hw
        · intro k hk
          omega
      · refine ⟨j + 1, by simpa using Nat.succ_lt_succ hj,
          by rw [hstep]; simpa using heq, ?_, ?_⟩
        · intro w hw
          rcases List.mem_cons.mp hw with rfl | hw
          · simp only [List.get_cons_succ]
            omega
          · simpa using hall w hw
        · intro k hk
          cases k with
          | zero =>
            simp only [List.get_cons_succ]
            exact hlt
          | succ k =>
            simpa using hfirst k (by omega)
  · intro x y
    exact ⟨rfl, rfl⟩
  · intro zones e
    rfl

/-- Witness for C4: a point inside the sole zone maps to sequential id
0; a point outside all zones falls back to the nearest zone; an empty
zone list yields byte 0; the encoded entrance byte matches. -/
theorem zone_id_recomputed_at_encode_witness :
    MapPositionToZoneID [⟨0, 0, 100, 100, 4⟩] 50 50 = 0 ∧
      (∃ j : Nat, ∃ hj : j < ([⟨0, 0, 100, 100, 4⟩] : List ZoneRec).length,
        MapPositionToZoneID [⟨0, 0, 100, 100, 4⟩] 300 50
          = ((([⟨0, 0, 100, 100, 4⟩] : List ZoneRec).get ⟨j, hj⟩).zoneID : Int) ∧
        (∀ z ∈ ([⟨0, 0, 100, 100, 4⟩] : List ZoneRec),
          zoneDist2 (([⟨0, 0, 100, 100, 4⟩] : List ZoneRec).get ⟨j, hj⟩) 300 50
            ≤ zoneDist2 z 300 50) ∧
        (∀ k (hk : k < j),
          zoneDist2 (([⟨0, 0, 100, 100, 4⟩] : List ZoneRec).get ⟨j, hj⟩) 300 50
            < zoneDist2 (([⟨0, 0, 100, 100, 4⟩] : List ZoneRec).get
                ⟨k, Nat.lt_trans hk hj⟩) 300 50)) ∧
      (MapPositionToZoneID [] 7 9 = -1 ∧ zoneByte [] 7 9 = 0) ∧
      (encEntrance [] ⟨3, 4, 0, 0, 0, 0, 9, 0, 0, 0, 0, 0⟩).getD 13 0
        = zoneByte [] (3 : Int) (4 : Int) % 256 := by
  refine ⟨?_, ?_, ?_, ?_⟩
  · exact zone_id_recomputed_at_encode.1 [⟨0, 0, 100, 100, 4⟩] 50 50 0 (by decide)
  · exact zone_id_recomputed_at_encode.2.1 [⟨0, 0, 100, 100, 4⟩] 300 50
      (by decide) (by decide)
  · exact zone_id_recomputed_at_encode.2.2.1 7 9
  · exact zone_id_recomputed_at_encode.2.2.2 [] ⟨3, 4, 0, 0, 0, 0, 9, 0, 0, 0, 0, 0⟩

/-! ## C10: save reorders sprites (`SortSpritesByZone`) -/

theorem lookupGroup_addToGroups (groups : List (Nat × List (SpriteRec × Nat)))
    (z0 z : Nat) (p : SpriteRec × Nat) :
    lookupGroup (addToGroups groups z0 p) z
      = if z = z0 then lookupGroup groups z ++ [p] else lookupGroup groups z := by
  induction groups with
  | nil =>
    by_cases h : z = z0
    · subst h; simp [addToGroups, lookupGroup]
    · have h2 : ¬ z0 = z := fun hh => h hh.symm
      simp [addToGroups, lookupGroup, h, h2]
  | cons g rest ih =>
    rcases g with ⟨k, gl⟩
    by_cases hk : k = z0
    · subst hk
      unfold addToGroups
      rw [if_pos rfl]
      by_cases hz : z = k
      · subst hz; simp [lookupGroup]
      · have h2 : ¬ k = z := fun hh => hz hh.symm
        simp [lookupGroup, h2, hz]
    · unfold addToGroups
      rw [if_neg hk]
      by_cases hz : k = z
      · subst hz
        have h2 : ¬ k = z0 := hk
        simp [lookupGroup, hk]
      · simp [lookupGroup, hz, ih]

theorem buildGroups_lookup (zones : List ZoneRec) (l : List SpriteRec) :
    ∀ (groups : List (Nat × List (SpriteRec × Nat))) (z : Nat),
      lookupGroup (buildGroups zones l groups) z
        = lookupGroup groups z
          ++ (l.map (fun s => (s, spriteZone zones s))).filter (fun p => p.2 = z) := by
  induction l with
  | nil => intro groups z; simp [buildGroups]
  | cons s rest ih =>
    intro groups z
    unfold buildGroups
    rw [ih, lookupGroup_addToGroups]
    by_cases hz : z = spriteZone zones s
    · rw [if_pos hz, List.map_cons,
        List.filter_cons_of_pos (by simpa using hz.symm), List.append_assoc]
      simp
    · rw [if_neg hz, List.map_cons,
        List.filter_cons_of_neg (by simpa using fun hh => hz hh.symm)]

theorem addToGroups_keys (groups : List (Nat × List (SpriteRec × Nat)))
    (z : Nat) (p : SpriteRec × Nat) :
    (addToGroups groups z p).map Prod.fst
      = if z ∈ groups.map Prod.fst then groups.map Prod.fst
        else groups.map Prod.fst ++ [z] := by
  induction groups with
  | nil => simp [addToGroups]
  | cons g rest ih =>
    rcases g with ⟨k, gl⟩
    by_cases hk : k = z
    · subst hk
      unfold addToGroups
      rw [if_pos rfl]
      simp
    · unfold addToGroups
      rw [if_neg hk]
      by_cases hm : z ∈ rest.map Prod.fst
      · simp only [List.map_cons, ih, if_pos hm]
        rw [if_pos (by simp [hm])]
      · simp only [List.map_cons, ih, if_neg hm]
        have h2 : ¬ z = k := fun hh => hk hh.symm
        rw [if_neg (by simp [hm, h2])]
        simp

theorem buildGroups_keys_mem (zones : List ZoneRec) (l : List SpriteRec) :
    ∀ (groups : List (Nat × List (SpriteRec × Nat))) (z : Nat),
      (z ∈ (buildGroups zones l groups).map Prod.fst
        ↔ z ∈ groups.map Prod.fst ∨ ∃ s ∈ l, spriteZone zones s = z) := by
  induction l with
  | nil => intro groups z; simp [buildGroups]
  | cons s rest ih =>
    intro groups z
    unfold buildGroups
    rw [ih, addToGroups_keys]
    by_cases hm : spriteZone zones s ∈ groups.map Prod.fst
    · rw [if_pos hm]
      constructor
      · rintro (h | ⟨w, hw, rfl⟩)
        · exact Or.inl h
        · exact Or.inr ⟨w, by simp [hw]⟩
      · rintro (h | ⟨w, hw, rfl⟩)
        · exact Or.inl h
        · rcases List.mem_cons.mp hw with rfl | hw
          · exact Or.inl hm
          · exact Or.inr ⟨w, hw, rfl⟩
    · rw [if_neg hm]
      constructor
      · rintro (h | ⟨w, hw, rfl⟩)
        · rcases List.mem_append.mp h with h | h
          · exact Or.inl h
          · exact Or.inr ⟨s, by simp, (List.mem_singleton.mp h).symm⟩
        · exact Or.inr ⟨w, by simp [hw]⟩
      · rintro (h | ⟨w, hw, rfl⟩)
        · exact Or.inl (List.mem_append_left _ h)
        · rcases List.mem_cons.mp hw with rfl | hw
          · exact Or.inl (List.mem_append_right _ (by simp))
          · exact Or.inr ⟨w, hw, rfl⟩

theorem buildGroups_keys_nodup (zones : List ZoneRec) (l : List SpriteRec) :
    ∀ (groups : List (Nat × List (SpriteRec × Nat))),
      (groups.map Prod.fst).Nodup → ((buildGroups zones l groups).map Prod.fst).Nodup := by
  induction l with
  | nil => intro groups h; simpa [buildGroups] using h
  | cons s rest ih =>
    intro groups h
    unfold buildGroups
    apply ih
    rw [addToGroups_keys]
    by_cases hm : spriteZone zones s ∈ groups.map Prod.fst
    · rwa [if_pos hm]
    · rw [if_neg hm]
      rw [List.nodup_append]
      refine ⟨h, List.nodup_singleton _, ?_⟩
      intro a ha hb
      rw [List.mem_singleton.mp hb] at ha
      exact hm ha

theorem insertKey_perm (k : Nat) (l : List Nat) : (insertKey k l).Perm (k :: l) := by
  induction l with
  | nil => simp [insertKey]
  | cons x xs ih =>
    unfold insertKey
    by_cases h : k ≤ x
    · rw [if_pos h]
    · rw [if_neg h]
      exact ((ih.cons x).trans (List.Perm.swap k x xs))

theorem insertKey_sorted (k : Nat) (l : List Nat) (h : l.Sorted (· ≤ ·)) :
    (insertKey k l).Sorted (· ≤ ·) := by
  induction l with
  | nil => simp [insertKey]
  | cons x xs ih =>
    unfold insertKey
    by_cases hk : k ≤ x
    · rw [if_pos hk]
      rw [List.sorted_cons]
      refine ⟨?_, h⟩
      intro b hb
      rcases List.mem_cons.mp hb with rfl | hb
      · exact hk
      · exact le_trans hk (List.rel_of_sorted_cons h b hb)
    · rw [if_neg hk]
      have hxs : xs.Sorted (· ≤ ·) := h.of_cons
      rw [List.sorted_cons]
      refine ⟨?_, ih hxs⟩
      intro b hb
      rcases List.mem_cons.mp ((insertKey_perm k xs).mem_iff.mp hb) with rfl | h1
      · omega
      · exact List.rel_of_sorted_cons h b h1

theorem sortKeys_perm (l : List Nat) : (sortKeys l).Perm l := by
  induction l with
  | nil => simp [sortKeys]
  | cons x xs ih => exact (insertKey_perm x (sortKeys xs)).trans (ih.cons x)

theorem sortKeys_sorted (l : List Nat) : (sortKeys l).Sorted (· ≤ ·) := by
  induction l with
  | nil => simp [sortKeys]
  | cons x xs ih => exact insertKey_sorted x (sortKeys xs) ih

theorem flatten_map_if_single (z : Nat) (L : List (SpriteRec × Nat)) :
    ∀ ks : List Nat, ks.Nodup →
      ((ks.map (fun k => if k = z then L else [])).flatten
        = if z ∈ ks then L else []) := by
  intro ks
  induction ks with
  | nil => simp
  | cons k rest ih =>
    intro hnd
    simp only [List.map_cons, List.flatten_cons]
    by_cases hk : k = z
    · subst hk
      have hz : k ∉ rest := (List.nodup_cons.mp hnd).1
      rw [if_pos rfl, ih (List.nodup_cons.mp hnd).2, if_neg hz, if_pos (by simp)]
      simp
    · rw [if_neg hk, ih (List.nodup_cons.mp hnd).2, List.nil_append]
      have hmem : (z ∈ k :: rest) ↔ (z ∈ rest) := by
        constructor
        · intro h
          rcases List.mem_cons.mp h with rfl | h
          · exact absurd rfl hk
          · exact h
        · exact fun h => List.mem_cons_of_mem _ h
      by_cases hz : z ∈ rest
      · rw [if_pos hz, if_pos (hmem.mpr hz)]
      · rw [if_neg hz, if_neg (fun hh => hz (hmem.mp hh))]

theorem partition_perm :
    ∀ (ks : List Nat) (L : List (SpriteRec × Nat)), ks.Nodup →
      (∀ p ∈ L, p.2 ∈ ks) →
      ((ks.map (fun k => L.filter (fun p => p.2 = k))).flatten).Perm L := by
  intro ks
  induction ks with
  | nil =>
    intro L _ hcov
    have : L = [] := by
      cases L with
      | nil => rfl
      | cons p rest => exact absurd (hcov p (by simp)) (by simp)
    subst this
    simp
  | cons k rest ih =>
    intro L hnd hcov
    simp only [List.map_cons, List.flatten_cons]
    have hknr : k ∉ rest := (List.nodup_cons.mp hnd).1
    have hmap : ∀ q ∈ rest,
        L.filter (fun p => p.2 = q)
          = (L.filter (fun p => ¬ p.2 = k)).filter (fun p => p.2 = q) := by
      intro q hq
      have hqk : ¬ q = k := fun hh => hknr (hh ▸ hq)
      rw [List.filter_filter]
      apply List.filter_congr
      intro p _
      by_cases hpq : p.2 = q
      · have hpk : ¬ p.2 = k := fun hh => hqk (hpq.symm.trans hh)
        simp [hpq, hpk, hqk]
      · simp [hpq]
    rw [List.map_congr_left hmap]
    have hcov2 : ∀ p ∈ L.filter (fun p => ¬ p.2 = k), p.2 ∈ rest := by
      intro p hp
      have hm := List.mem_filter.mp hp
      have := hcov p hm.1
      rcases List.mem_cons.mp this with hh | hh
      · exact absurd hh (by simpa using hm.2)
      · exact hh
    have hperm := ih (L.filter (fun p => ¬ p.2 = k)) (List.nodup_cons.mp hnd).2 hcov2
    refine List.Perm.trans (hperm.append_left _) ?_
    have h3 : L.filter (fun p => ¬ p.2 = k)
        = L.filter (fun p => ! decide (p.2 = k)) := by
      apply List.filter_congr
      intro p _
      simp [decide_not]
    rw [h3]
    exact List.filter_append_perm (fun p => decide ((p : SpriteRec × Nat).2 = k)) L

/-- C10: `LevelUnit.save` first runs `SortSpritesByZone`: the sprite
list becomes a stable ascending sort by recomputed zone id, each
sprite's `zoneID` attribute (pair component) is the recomputed value,
relative order within a zone is preserved (filter characterization),
the result is a permutation of the input, and the saved sprite block is
the encoding of exactly this reordered list. -/
theorem save_reorders_sprites (zones : List ZoneRec) (sprites : List SpriteRec) :
    (∀ p ∈ sortSpritesByZone zones sprites, p.2 = spriteZone zones p.1) ∧
      ((sortSpritesByZone zones sprites).map Prod.snd).Sorted (· ≤ ·) ∧
      (∀ z : Nat, (sortSpritesByZone zones sprites).filter (fun p => p.2 = z)
        = (sprites.map (fun s => (s, spriteZone zones s))).filter (fun p => p.2 = z)) ∧
      (sortSpritesByZone zones sprites).Perm
        (sprites.map (fun s => (s, spriteZone zones s))) ∧
      saveSpritesBlock zones sprites
        = saveSpritesFrom (sortSpritesByZone zones sprites) := by
  have hlookup : ∀ z : Nat,
      lookupGroup (buildGroups zones sprites []) z
        = (sprites.map (fun s => (s, spriteZone zones s))).filter (fun p => p.2 = z) := by
    intro z
    rw [buildGroups_lookup zones sprites [] z]
    rfl
  have hnodup : ((buildGroups zones sprites []).map Prod.fst).Nodup :=
    buildGroups_keys_nodup zones sprites [] (by simp)
  have hkeymem : ∀ z : Nat,
      (z ∈ (buildGroups zones sprites []).map Prod.fst
        ↔ ∃ s ∈ sprites, spriteZone zones s = z) := by
    intro z
    rw [buildGroups_keys_mem zones sprites [] z]
    simp
  have hsknd : (sortKeys ((buildGroups zones sprites []).map Prod.fst)).Nodup :=
    (sortKeys_perm _).nodup_iff.mpr hnodup
  have hperm : (sortSpritesByZone zones sprites).Perm
      (sprites.map (fun s => (s, spriteZone zones s))) := by
    unfold sortSpritesByZone
    refine ((List.Perm.flatten ((sortKeys_perm _).map (lookupGroup _))).trans ?_)
    have hshape : ((buildGroups zones sprites []).map Prod.fst).map
          (lookupGroup (buildGroups zones sprites []))
        = ((buildGroups zones sprites []).map Prod.fst).map
          (fun k => (sprites.map (fun s => (s, spriteZone zones s))).filter
            (fun p => p.2 = k)) := by
      apply List.map_congr_left
      intro k _
      exact hlookup k
    rw [hshape]
    apply partition_perm _ _ hnodup
    intro p hp
    rcases List.mem_map.mp hp with ⟨s, hs, rfl⟩
    exact (hkeymem _).mpr ⟨s, hs, rfl⟩
  refine ⟨?_, ?_, ?_, hperm, rfl⟩
  · intro p hp
    have hm := hperm.mem_iff.mp hp
    rcases List.mem_map.mp hm with ⟨s, _, rfl⟩
    rfl
  · unfold sortSpritesByZone
    rw [List.map_flatten, List.map_map]
    have hsorted := sortKeys_sorted ((buildGroups zones sprites []).map Prod.fst)
    generalize hks : sortKeys ((buildGroups zones sprites []).map Prod.fst) = ks
    rw [hks] at hsorted
    clear hks hsknd
    induction ks with
    | nil => simp
    | cons k rest ih =>
      simp only [List.map_cons, List.flatten_cons, Function.comp]
      rw [List.Sorted, List.pairwise_append]
      refine ⟨?_, ?_, ?_⟩
      · apply List.pairwise_of_forall_mem_list
        intro a ha b hb
        rcases List.mem_map.mp ha with ⟨p, hp, rfl⟩
        rcases List.mem_map.mp hb with ⟨q, hq, rfl⟩
        rw [hlookup k] at hp hq
        have hpa := List.mem_filter.mp hp
        have hqa := List.mem_filter.mp hq
        have h1 : p.2 = k := by simpa using hpa.2
        have h2 : q.2 = k := by simpa using hqa.2
        rw [h1, h2]
      · exact ih (List.sorted_cons.mp hsorted).2
      · intro a ha b hb
        rcases List.mem_map.mp ha with ⟨p, hp, rfl⟩
        rw [hlookup k] at hp
        have h1 : p.2 = k := by simpa using (List.mem_filter.mp hp).2
        rcases List.mem_flatten.mp hb with ⟨sub, hsub, hbs⟩
        rcases List.mem_map.mp hsub with ⟨q, hq, rfl⟩
        rcases List.mem_map.mp hbs with ⟨w, hw, rfl⟩
        rw [hlookup q] at hw
        have h2 : w.2 = q := by simpa using (List.mem_filter.mp hw).2
        rw [h1, h2]
        exact (List.sorted_cons.mp hsorted).1 q hq
  · intro z
    unfold sortSpritesByZone
    rw [List.filter_flatten, List.map_map]
    have hshape : (sortKeys ((buildGroups zones sprites []).map Prod.fst)).map
          ((List.filter (fun p => p.2 = z)) ∘ lookupGroup (buildGroups zones sprites []))
        = (sortKeys ((buildGroups zones sprites []).map Prod.fst)).map
          (fun k => if k = z
            then (sprites.map (fun s => (s, spriteZone zones s))).filter (fun p => p.2 = z)
            else []) := by
      apply List.map_congr_left
      intro k _
      simp only [Function.comp]
      rw [hlookup k, List.filter_filter]
      by_cases hk : k = z
      · subst hk
        rw [if_pos rfl]
        apply List.filter_congr
        intro p _
        by_cases hp : p.2 = k <;> simp [hp]
      · rw [if_neg hk]
        apply List.filter_eq_nil_iff.mpr
        intro p _
        by_cases hp : p.2 = z
        · have hpk : ¬ p.2 = k := fun hh => hk (hh.symm.trans hp)
          have hzk : ¬ z = k := fun hh => hk hh.symm
          simp [hp, hpk, hzk]
        · simp [hp]
    rw [hshape, flatten_map_if_single z _ _ hsknd]
    by_cases hz : z ∈ sortKeys ((buildGroups zones sprites []).map Prod.fst)
    · rw [if_pos hz]
    · rw [if_neg hz]
      symm
      apply List.filter_eq_nil_iff.mpr
      intro p hp
      rcases List.mem_map.mp hp with ⟨s, hs, rfl⟩
      simp only [decide_eq_true_eq]
      intro hh
      exact hz (((sortKeys_perm _).mem_iff).mpr ((hkeymem _).mpr ⟨s, hs, hh⟩))

/-! ## C3: record-codec round trips -/

theorem byteAt_append (a b : List Nat) (k : Nat) :
    byteAt (a ++ b) (a.length + k) = byteAt b k :=
  getD_append_right 0

theorem encCamProfile_length (bid : Nat) (p : CamProfileRec) :
    (encCamProfile bid p).length = 20 := by
  simp [encCamProfile]

theorem encZoneBounds_length (i : Nat) (z : ZoneBoundsFields) :
    (encZoneBounds i z).length = 24 := by
  simp [encZoneBounds, se32, se16, be32, be16]

theorem saveZoneBoundsBlock_length (zs : List ZoneBoundsFields) :
    (saveZoneBoundsBlock zs).length = 24 * zs.length := by
  unfold saveZoneBoundsBlock
  rw [length_flatten_map_const (fun p : Nat × ZoneBoundsFields => encZoneBounds p.1 p.2) 24
    (fun p => encZoneBounds_length p.1 p.2) zs.enum, List.enum_length]

theorem readBounds_append (a b : List Nat) (k : Nat) :
    readBounds (a ++ b) (a.length + k) = readBounds b k := by
  unfold readBounds reads32 reads16
  rw [show a.length + k + 4 = a.length + (k + 4) by omega,
    show a.length + k + 8 = a.length + (k + 8) by omega,
    show a.length + k + 12 = a.length + (k + 12) by omega,
    show a.length + k + 16 = a.length + (k + 16) by omega,
    show a.length + k + 18 = a.length + (k + 18) by omega,
    show a.length + k + 20 = a.length + (k + 20) by omega,
    show a.length + k + 22 = a.length + (k + 22) by omega,
    readBE32_append, readBE32_append, readBE32_append, readBE32_append,
    readBE16_append, readBE16_append, readBE16_append, readBE16_append]

theorem readBounds_synthetic (bid : Nat) (h : bid < 65536) :
    readBounds (encSyntheticBounds bid) 0 = ⟨0, 0, 0, 0, bid, 15, 0, 0⟩ := by
  unfold readBounds encSyntheticBounds reads32 reads16 be16 readBE32 readBE16
  simp only [List.replicate, List.cons_append, List.nil_append, List.getD_cons_succ,
    List.getD_cons_zero]
  simp only [BoundsRec.mk.injEq]
  norm_num
  omega

theorem readBounds_encZoneBounds_f4 (i : Nat) (z : ZoneBoundsFields) (b : List Nat)
    (h : i < 65536) :
    (readBounds (encZoneBounds i z ++ b) 0).f4 = i := by
  unfold readBounds encZoneBounds se32 se16 be32 be16 readBE16
  simp only [List.cons_append, List.nil_append, List.getD_cons_succ, List.getD_cons_zero]
  omega

theorem zoneBounds_f4 :
    ∀ (l : List (Nat × ZoneBoundsFields)) (b : List Nat) (i : Nat),
      (hi : i < l.length) → (∀ p ∈ l, p.1 < 65536) →
      (readBounds ((l.map (fun p => encZoneBounds p.1 p.2)).flatten ++ b) (i * 24)).f4
        = (l.get ⟨i, hi⟩).1 := by
  intro l
  induction l with
  | nil => intro b i hi; simp at hi
  | cons p rest ih =>
    intro b i hi hr
    cases i with
    | zero =>
      simp only [List.map_cons, List.flatten_cons, List.append_assoc, List.get]
      rw [show 0 * 24 = 0 from by omega]
      exact readBounds_encZoneBounds_f4 p.1 p.2 _ (hr p (by simp))
    | succ i =>
      simp only [List.map_cons, List.flatten_cons, List.append_assoc, List.get]
      rw [show Nat.succ i * 24 = (encZoneBounds p.1 p.2).length + i * 24 from by
        rw [encZoneBounds_length]
        omega,
        readBounds_append]
      exact ih b i (by simpa using hi) (fun w hw => hr w (by simp [hw]))

theorem findBounds_append_singleton (l : List BoundsRec) (r : BoundsRec) (id : Nat) :
    findBounds (l ++ [r]) id = if r.f4 = id then some r else findBounds l id := by
  unfold findBounds
  rw [List.foldl_append]
  rfl

theorem camProfile_bounds_byte (bid : Nat) :
    ∀ (l : List CamProfileRec) (i : Nat), i < l.length →
      byteAt ((l.map (encCamProfile bid)).flatten) (i * 20 + 12) = bid % 256 := by
  intro l
  induction l with
  | nil => intro i hi; simp at hi
  | cons p rest ih =>
    intro i hi
    cases i with
    | zero =>
      simp only [List.map_cons, List.flatten_cons]
      rw [show 0 * 20 + 12 = 12 from by omega]
      unfold encCamProfile byteAt
      simp only [List.replicate, List.cons_append, List.nil_append, List.getD_cons_succ,
        List.getD_cons_zero]
    | succ i =>
      simp only [List.map_cons, List.flatten_cons]
      rw [show Nat.succ i * 20 + 12 = (encCamProfile bid p).length + (i * 20 + 12) from by
        rw [encCamProfile_length]
        omega,
        byteAt_append]
      exact ih i (by simpa using hi)

/-- C7: for a nonempty camera-profile list the encoder emits
`count + 1` twenty-byte records with an all-zero first record, appends
exactly one synthetic all-defaults 24-byte bounds record whose embedded
id is `bid = len(bounds block) / 20`, writes `bid` into every real
profile's bounds-id byte, and linear-scan resolution on `bid` over the
decoded bounds block selects the synthetic record (whose id collides
with no zone bounds record); an empty profile list yields an empty
block and leaves the bounds block unchanged. -/
theorem cam_profile_encode (zs : List ZoneBoundsFields) (camprofiles : List CamProfileRec)
    (hz : zs.length ≤ 213) :
    (saveCamProfiles [] (saveZoneBoundsBlock zs) = ([], saveZoneBoundsBlock zs)) ∧
    (camprofiles ≠ [] →
      (saveCamProfiles camprofiles (saveZoneBoundsBlock zs)).1.length
          = 20 * (camprofiles.length + 1) ∧
        (saveCamProfiles camprofiles (saveZoneBoundsBlock zs)).1.take 20
          = List.replicate 20 0 ∧
        (saveCamProfiles camprofiles (saveZoneBoundsBlock zs)).2
          = saveZoneBoundsBlock zs ++ encSyntheticBounds (24 * zs.length / 20) ∧
        (∀ i < camprofiles.length,
          byteAt (saveCamProfiles camprofiles (saveZoneBoundsBlock zs)).1
              ((i + 1) * 20 + 12)
            = 24 * zs.length / 20) ∧
        readBE16 (encSyntheticBounds (24 * zs.length / 20)) 16 = 24 * zs.length / 20 ∧
        findBounds
            (loadZoneBounds (saveCamProfiles camprofiles (saveZoneBoundsBlock zs)).2)
            (24 * zs.length / 20)
          = some ⟨0, 0, 0, 0, 24 * zs.length / 20, 15, 0, 0⟩ ∧
        (∀ i < zs.length,
          (readBounds (saveCamProfiles camprofiles (saveZoneBoundsBlock zs)).2
              (i * 24)).f4 = i ∧ i ≠ 24 * zs.length / 20)) := by
  have hBlen : (saveZoneBoundsBlock zs).length = 24 * zs.length :=
    saveZoneBoundsBlock_length zs
  have hbid : (saveZoneBoundsBlock zs).length / 20 = 24 * zs.length / 20 := by
    rw [hBlen]
  have hbid255 : 24 * zs.length / 20 < 256 := by omega
  have hbidge : zs.length ≤ 24 * zs.length / 20 := by omega
  refine ⟨by simp [saveCamProfiles], ?_⟩
  intro hne
  have hsplit : saveCamProfiles camprofiles (saveZoneBoundsBlock zs)
      = (List.replicate 20 0
          ++ (camprofiles.map (encCamProfile (24 * zs.length / 20))).flatten,
        saveZoneBoundsBlock zs ++ encSyntheticBounds (24 * zs.length / 20)) := by
    unfold saveCamProfiles
    rw [if_neg hne, hbid]
  have hflen : ((camprofiles.map (encCamProfile (24 * zs.length / 20))).flatten).length
      = 20 * camprofiles.length :=
    length_flatten_map_const _ 20 (encCamProfile_length _) camprofiles
  refine ⟨?_, ?_, ?_, ?_, ?_, ?_, ?_⟩
  · rw [hsplit]
    simp [hflen]
    omega
  · rw [hsplit]
    exact List.take_left' (by simp)
  · rw [hsplit]
  · intro i hi
    rw [hsplit]
    dsimp only
    rw [show (i + 1) * 20 + 12 = (List.replicate 20 (0 : Nat)).length + (i * 20 + 12) from by
      simp
      omega,
      byteAt_append, camProfile_bounds_byte _ _ i hi, Nat.mod_eq_of_lt hbid255]
  · unfold encSyntheticBounds be16 readBE16
    simp only [List.replicate, List.cons_append, List.nil_append, List.getD_cons_succ,
      List.getD_cons_zero]
    omega
  · rw [hsplit]
    dsimp only
    unfold loadZoneBounds
    have hcount : (saveZoneBoundsBlock zs
        ++ encSyntheticBounds (24 * zs.length / 20)).length / 24 = zs.length + 1 := by
      rw [List.length_append, hBlen, show (encSyntheticBounds (24 * zs.length / 20)).length
        = 24 from by simp [encSyntheticBounds, be16]]
      omega
    rw [hcount, List.range_succ, List.map_append, List.map_cons, List.map_nil]
    have hlast : readBounds (saveZoneBoundsBlock zs
        ++ encSyntheticBounds (24 * zs.length / 20)) (zs.length * 24)
        = ⟨0, 0, 0, 0, 24 * zs.length / 20, 15, 0, 0⟩ := by
      rw [show zs.length * 24 = (saveZoneBoundsBlock zs).length + 0 from by
        rw [hBlen]; omega,
        readBounds_append]
      rw [show readBounds (encSyntheticBounds (24 * zs.length / 20)) 0
          = readBounds (encSyntheticBounds (24 * zs.length / 20)) 0 from rfl]
      exact readBounds_synthetic _ (by omega)
    rw [hlast, findBounds_append_singleton]
    rw [if_pos rfl]
  · intro i hi
    rw [hsplit]
    dsimp only
    constructor
    · unfold saveZoneBoundsBlock
      have := zoneBounds_f4 zs.enum (encSyntheticBounds (24 * zs.length / 20)) i
        (by simpa using hi) (by
          intro p hp
          have h2 : zs[p.1]? = some p.2 := by
            rw [← List.mk_mem_enum_iff_getElem?]
            rwa [Prod.mk.eta]
          rcases List.getElem?_eq_some.mp h2 with ⟨hlt, -⟩
          omega)
      rw [this]
      simp [List.get_eq_getElem, List.getElem_enum]
    · omega

/-- C7 witness: one zone and one camera profile satisfy the length bound
and the nonemptiness guard, and the encoded profile block has the
claimed `20 * (count + 1)` length. -/
theorem cam_profile_encode_witness :
    (([(⟨1, -2, 3, -4, 5, 6, -7⟩ : ZoneBoundsFields)].length ≤ 213)
      ∧ [(⟨9, 1, 2⟩ : CamProfileRec)] ≠ [])
    ∧ (saveCamProfiles [(⟨9, 1, 2⟩ : CamProfileRec)]
          (saveZoneBoundsBlock [(⟨1, -2, 3, -4, 5, 6, -7⟩ : ZoneBoundsFields)])).1.length
        = 20 * ([(⟨9, 1, 2⟩ : CamProfileRec)].length + 1) :=
  ⟨⟨by decide, by decide⟩,
    ((cam_profile_encode [⟨1, -2, 3, -4, 5, 6, -7⟩] [⟨9, 1, 2⟩]
        (by decide)).2 (by decide)).1⟩

/-! ### C8: diagonal-mode clipping and holes -/

/-- Cell accessor for the destination grid, with the hole value `-1`
as the out-of-range default. -/
def cellAt (dest : List (List Int)) (r c : Nat) : Int :=
  ((dest[r]?).getD [])[c]?.getD (-1)

/-- The column footprint of one `stampRowGo` pass starting at `xo`:
`true` iff some source cell targets destination column `c`. -/
def rowCoversB (c : Nat) : Int → List ObjCell → Bool
  | _, [] => false
  | xo, _ :: cs => decide (xo = (c : Int)) || rowCoversB c (xo + 1) cs

/-- The footprint of one `putObjectArray` stamp at `(xo, yo)`: `true`
iff some source cell targets destination cell `(r, c)`. -/
def stampCoversB (r c : Nat) : Int → Int → List (List ObjCell) → Bool
  | _, _, [] => false
  | xo, yo, srow :: rest =>
    (decide (yo = (r : Int)) && rowCoversB c xo srow)
      || stampCoversB r c xo (yo + 1) rest

/-- The footprint of the whole `RenderDiagonalObject` draw loop over
its `drawAmount` iterations (main block and optional sub block). -/
def diagCoversB (xi yi : Int) (main : List (List ObjCell))
    (sub : Option (List (List ObjCell))) (goLeft goDown : Bool)
    (r c : Nat) : Int → Int → Nat → Bool
  | _, _, 0 => false
  | x, y, n + 1 =>
    stampCoversB r c x y main
      || (match sub with
          | none => false
          | some sb =>
            stampCoversB r c (subXOff x goLeft main sb)
              (subYOff y goDown main sb) sb)
      || diagCoversB xi yi main sub goLeft goDown r c (x + xi) (y + yi) n

/-- The footprint of `renderDiagonal` on the given recipe and request. -/
def diagCovers (rows : List ObjRow) (width height : Nat) (fullslope : Bool)
    (r c : Nat) : Bool :=
  let s := diagSetup rows width height fullslope
  diagCoversB s.xi s.yi s.main s.sub s.goLeft s.goDown r c s.x0 s.y0 s.drawAmount

theorem stampRowGo_length (cs : List ObjCell) :
    ∀ (drow : List Int) (xo : Int) (width : Nat),
      (stampRowGo drow xo width cs).length = drow.length := by
  induction cs with
  | nil => intro drow xo width; rfl
  | cons a cs ih =>
    intro drow xo width
    unfold stampRowGo
    rw [ih]
    split
    · exact List.length_set drow _ _
    · rfl

theorem stampRowGo_untouched (c : Nat) (cs : List ObjCell) :
    ∀ (drow : List Int) (xo : Int) (width : Nat),
      rowCoversB c xo cs = false →
      (stampRowGo drow xo width cs)[c]? = drow[c]? := by
  induction cs with
  | nil => intro drow xo width h; rfl
  | cons a cs ih =>
    intro drow xo width h
    unfold rowCoversB at h
    simp only [Bool.or_eq_false_iff, decide_eq_false_iff_not] at h
    unfold stampRowGo
    rw [ih _ _ _ h.2]
    split
    · rename_i hg
      exact List.getElem?_set_ne (by omega)
    · rfl

theorem putObjectArray_length (block : List (List ObjCell)) :
    ∀ (dest : List (List Int)) (xo yo : Int) (w h : Nat),
      (putObjectArray dest xo yo block w h).length = dest.length := by
  induction block with
  | nil => intro dest xo yo w h; rfl
  | cons srow rest ih =>
    intro dest xo yo w h
    unfold putObjectArray
    rw [ih]
    split
    · exact List.length_set dest _ _
    · rfl

theorem putObjectArray_rowlen (block : List (List ObjCell)) :
    ∀ (dest : List (List Int)) (xo yo : Int) (w h : Nat) (i : Nat),
      (((putObjectArray dest xo yo block w h)[i]?).getD []).length
        = ((dest[i]?).getD []).length := by
  induction block with
  | nil => intro dest xo yo w h i; rfl
  | cons srow rest ih =>
    intro dest xo yo w h i
    unfold putObjectArray
    rw [ih]
    split
    · rename_i hg
      by_cases hyi : yo.toNat = i
      · subst hyi
        by_cases hlt : yo.toNat < dest.length
        · rw [List.getElem?_set_self hlt]
          simp only [Option.getD_some]
          rw [stampRowGo_length]
          rw [List.getD_eq_getElem?_getD]
        · rw [List.set_eq_of_length_le (by omega)]
      · rw [List.getElem?_set_ne hyi]
    · rfl

theorem putObjectArray_untouched (r c : Nat) (block : List (List ObjCell)) :
    ∀ (dest : List (List Int)) (xo yo : Int) (w h : Nat),
      stampCoversB r c xo yo block = false →
      cellAt (putObjectArray dest xo yo block w h) r c = cellAt dest r c := by
  induction block with
  | nil => intro dest xo yo w h hcov; rfl
  | cons srow rest ih =>
    intro dest xo yo w h hcov
    unfold stampCoversB at hcov
    simp only [Bool.or_eq_false_iff, Bool.and_eq_false_iff,
      decide_eq_false_iff_not] at hcov
    unfold putObjectArray
    rw [ih _ _ _ _ _ hcov.2]
    split
    · rename_i hg
      by_cases hyr : yo.toNat = r
      · have hyr' : yo = (r : Int) := by omega
        rcases hcov.1 with hne | hrow
        · exact absurd hyr' hne
        · by_cases hlt : r < dest.length
          · unfold cellAt
            rw [show yo.toNat = r from hyr, List.getElem?_set_self hlt]
            simp only [Option.getD_some]
            rw [stampRowGo_untouched c srow _ _ _ hrow]
            rw [show dest.getD r [] = (dest[r]?).getD [] from
              List.getD_eq_getElem?_getD dest r []]
          · rw [List.set_eq_of_length_le (by omega)]
      · unfold cellAt
        rw [List.getElem?_set_ne hyr]
    · rfl

theorem renderDiagGo_length (xi yi : Int) (main : List (List ObjCell))
    (sub : Option (List (List ObjCell))) (goLeft goDown : Bool) (w h : Nat) :
    ∀ (n : Nat) (dest : List (List Int)) (x y : Int),
      (renderDiagGo dest x y xi yi main sub goLeft goDown w h n).length
        = dest.length := by
  intro n
  induction n with
  | zero => intro dest x y; rfl
  | succ n ih =>
    intro dest x y
    unfold renderDiagGo
    rw [ih]
    cases sub with
    | none => exact putObjectArray_length main dest x y w h
    | some sb =>
      dsimp only
      rw [putObjectArray_length, putObjectArray_length]

theorem renderDiagGo_rowlen (xi yi : Int) (main : List (List ObjCell))
    (sub : Option (List (List ObjCell))) (goLeft goDown : Bool) (w h : Nat) :
    ∀ (n : Nat) (dest : List (List Int)) (x y : Int) (i : Nat),
      (((renderDiagGo dest x y xi yi main sub goLeft goDown w h n)[i]?).getD []).length
        = ((dest[i]?).getD []).length := by
  intro n
  induction n with
  | zero => intro dest x y i; rfl
  | succ n ih =>
    intro dest x y i
    unfold renderDiagGo
    rw [ih]
    cases sub with
    | none => exact putObjectArray_rowlen main dest x y w h i
    | some sb =>
      dsimp only
      rw [putObjectArray_rowlen, putObjectArray_rowlen]

theorem renderDiagGo_untouched (xi yi : Int) (main : List (List ObjCell))
    (sub : Option (List (List ObjCell))) (goLeft goDown : Bool) (w h : Nat)
    (r c : Nat) :
    ∀ (n : Nat) (dest : List (List Int)) (x y : Int),
      diagCoversB xi yi main sub goLeft goDown r c x y n = false →
      cellAt (renderDiagGo dest x y xi yi main sub goLeft goDown w h n) r c
        = cellAt dest r c := by
  intro n
  induction n with
  | zero => intro dest x y hcov; rfl
  | succ n ih =>
    intro dest x y hcov
    unfold diagCoversB at hcov
    simp only [Bool.or_eq_false_iff] at hcov
    unfold renderDiagGo
    rw [ih _ _ _ hcov.2]
    cases sub with
    | none =>
      dsimp only
      exact putObjectArray_untouched r c main dest x y w h hcov.1.1
    | some sb =>
      dsimp only
      rw [putObjectArray_untouched r c sb _ _ _ w h hcov.1.2,
        putObjectArray_untouched r c main dest x y w h hcov.1.1]

theorem cellAt_init (w h r c : Nat) :
    cellAt (List.replicate h (List.replicate w (-1 : Int))) r c = -1 := by
  unfold cellAt
  rw [List.getElem?_replicate]
  by_cases hr : r < h
  · rw [if_pos hr]
    simp only [Option.getD_some]
    rw [List.getElem?_replicate]
    by_cases hc : c < w
    · rw [if_pos hc]
      rfl
    · rw [if_neg hc]
      rfl
  · rw [if_neg hr]
    rfl

/-- C8: the stamping primitive `PutObjectArray` silently clips out-of-range
targets — for every destination, offsets and block (so also at `height = 1`)
it preserves the row count and every row's length, never writing outside
`[0, height) × [0, width)` — and every cell of the diagonal renderer's
output not covered by the footprint of any stamp iteration still holds
the hole value `-1`; the output grid is exactly `height` rows of
`width` cells. -/
theorem diagonal_clipping_and_holes (rows : List ObjRow) (width height : Nat)
    (fullslope : Bool) (dest : List (List Int)) (xo yo : Int)
    (block : List (List ObjCell)) (r c : Nat) :
    (putObjectArray dest xo yo block width height).length = dest.length ∧
    (∀ i : Nat, (((putObjectArray dest xo yo block width height)[i]?).getD []).length
      = ((dest[i]?).getD []).length) ∧
    (renderDiagonal rows width height fullslope).length = height ∧
    (∀ row ∈ renderDiagonal rows width height fullslope, row.length = width) ∧
    (diagCovers rows width height fullslope r c = false →
      cellAt (renderDiagonal rows width height fullslope) r c = -1) := by
  set s := diagSetup rows width height fullslope with hs
  have hdiag : renderDiagonal rows width height fullslope
      = renderDiagGo (List.replicate height (List.replicate width (-1 : Int)))
        s.x0 s.y0 s.xi s.yi s.main s.sub s.goLeft s.goDown
        width height s.drawAmount := rfl
  have hcB : diagCovers rows width height fullslope r c
      = diagCoversB s.xi s.yi s.main s.sub s.goLeft s.goDown r c
          s.x0 s.y0 s.drawAmount := rfl
  refine ⟨putObjectArray_length block dest xo yo width height,
    fun i => putObjectArray_rowlen block dest xo yo width height i, ?_, ?_, ?_⟩
  · rw [hdiag, renderDiagGo_length]
    exact List.length_replicate height _
  · intro row hrow
    rcases List.mem_iff_getElem.mp hrow with ⟨i, hi, hget⟩
    have hlen : (renderDiagonal rows width height fullslope).length = height := by
      rw [hdiag, renderDiagGo_length]
      exact List.length_replicate height _
    have hrl : (((renderDiagonal rows width height fullslope)[i]?).getD []).length
        = ((List.replicate height (List.replicate width (-1 : Int)))[i]?.getD []).length := by
      rw [hdiag]
      exact renderDiagGo_rowlen s.xi s.yi s.main s.sub s.goLeft s.goDown
        width height s.drawAmount
        (List.replicate height (List.replicate width (-1 : Int))) s.x0 s.y0 i
    rw [List.getElem?_eq_getElem hi, hget] at hrl
    rw [List.getElem?_replicate, if_pos (by omega), Option.getD_some,
      Option.getD_some, List.length_replicate] at hrl
    exact hrl
  · intro hcov
    rw [hcB] at hcov
    rw [hdiag, renderDiagGo_untouched s.xi s.yi s.main s.sub s.goLeft s.goDown
      width height r c s.drawAmount
      (List.replicate height (List.replicate width (-1 : Int))) s.x0 s.y0 hcov]
    exact cellAt_init width height r c

/-- C8 witness: a one-tile upward slope rendered at `3 × 1` covers only
cell `(0, 0)`; cell `(0, 2)` is outside every stamp footprint and holds
the hole value `-1`. -/
theorem diagonal_clipping_and_holes_witness :
    diagCovers [[⟨128, 0⟩, ⟨0, 5⟩]] 3 1 false 0 2 = false ∧
    cellAt (renderDiagonal [[⟨128, 0⟩, ⟨0, 5⟩]] 3 1 false) 0 2 = -1 :=
  ⟨by decide,
    (diagonal_clipping_and_holes [[⟨128, 0⟩, ⟨0, 5⟩]] 3 1 false [] 0 0 [] 0 2).2.2.2.2
      (by decide)⟩

end Reggie
